import Mathlib

/-!
# Verification of the fontTools WOFF2 codec (`Lib/fontTools/ttLib/woff2.py`)

A shallow embedding of the WOFF2 container codec and the `glyf`/`loca` table
transform, translated from the Python source.  Byte strings are modelled as
`List Nat` (each entry a byte value `0..255`); fallible Python code (raising
`TTLibError`, or crashing with an unguarded built-in exception) is modelled
with `Except PyExc`.

Definitions are translated from the source; the handful of collaborator
functions that the source imports from parts of the repository not present
here (`GlyphComponent`, `ttProgram`, `calcIntBounds`/`recalcBounds`,
`calcChecksum`, `getSearchRange`) are modelled from the specification and are
marked `Modelled from the spec:` in their doc comments.
-/

/-- The kinds of exceptions the embedded Python code can raise.
`ttLibError` models `fontTools.ttLib.TTLibError` with its message; the other
constructors model unguarded built-in exceptions (`IndexError`/`TypeError`
from reading an empty slice, `struct.error` from out-of-range packing,
`ValueError` from `max([])`/odd array initialisers, `OverflowError` from
appending an out-of-range value to a byte `array`, `AssertionError` from a
failing `assert`). -/
inductive PyExc where
  | ttLibError (msg : String)
  | indexError
  | structError
  | valueError
  | overflowError
  | assertionError
  deriving Repr, DecidableEq

/-- `struct.unpack(">H", [a, b])`: big-endian unsigned 16-bit read. -/
def readU16 (a b : Nat) : Nat := a * 256 + b

/-- `struct.unpack(">L", [a, b, c, d])`: big-endian unsigned 32-bit read. -/
def readU32 (a b c d : Nat) : Nat := ((a * 256 + b) * 256 + c) * 256 + d

/-- `struct.unpack(">h", [a, b])`: big-endian signed 16-bit read. -/
def readInt16 (a b : Nat) : Int :=
  let u := a * 256 + b
  if u < 0x8000 then (u : Int) else (u : Int) - 0x10000

/-- `struct.pack(">H", n)`: errors unless `0 ≤ n < 2^16`. -/
def packU16 (n : Nat) : Except PyExc (List Nat) :=
  if n < 0x10000 then .ok [n / 256, n % 256] else .error .structError

/-- `struct.pack(">L", n)`: errors unless `0 ≤ n < 2^32`. -/
def packU32 (n : Nat) : Except PyExc (List Nat) :=
  if n < 0x100000000 then
    .ok [n / 0x1000000 % 256, n / 0x10000 % 256, n / 256 % 256, n % 256]
  else .error .structError

/-- `struct.pack(">h", i)`: two's-complement big-endian signed 16-bit write,
errors unless `-2^15 ≤ i < 2^15`. -/
def packInt16 (i : Int) : Except PyExc (List Nat) :=
  if -0x8000 ≤ i ∧ i < 0x8000 then
    let u := (i % 0x10000).toNat
    .ok [u / 256, u % 256]
  else .error .structError

/-! ## 255UInt16 variable-length codec (`unpack255UShort` / `pack255UShort`) -/

/-- `unpack255UShort(data)` from the source: read one to three bytes of
255UInt16-encoded input, return the decoded integer plus leftover data.
The initial `byteord(data[:1])` is unguarded, so an empty input crashes with
a built-in exception rather than a `TTLibError`. -/
def unpack255UShort (data : List Nat) : Except PyExc (Nat × List Nat) :=
  match data with
  | [] => .error .indexError
  | code :: data =>
    if code = 253 then
      -- read two more bytes as an unsigned short
      match data with
      | b1 :: b2 :: rest => .ok (readU16 b1 b2, rest)
      | _ => .error (.ttLibError "not enough data to unpack 255UInt16")
    else if code = 254 then
      -- read another byte, plus 253 * 2
      match data with
      | b :: rest => .ok (b + 506, rest)
      | _ => .error (.ttLibError "not enough data to unpack 255UInt16")
    else if code = 255 then
      -- read another byte, plus 253
      match data with
      | b :: rest => .ok (b + 253, rest)
      | _ => .error (.ttLibError "not enough data to unpack 255UInt16")
    else
      -- leave as is if lower than 253
      .ok (code, data)

/-- `pack255UShort(value)` from the source: shortest-form 255UInt16 encoding.
The argument is an `Int` because the source guards `value < 0`. -/
def pack255UShort (value : Int) : Except PyExc (List Nat) :=
  if value < 0 ∨ value > 0xFFFF then
    .error (.ttLibError "255UInt16 format requires 0 <= integer <= 65535")
  else
    let v := value.toNat
    if v < 253 then .ok [v]
    else if v < 506 then .ok [255, v - 253]
    else if v < 762 then .ok [254, v - 506]
    else .ok [253, v / 256, v % 256]

/-! ## UIntBase128 variable-length codec (`unpackBase128` / `packBase128`) -/

/-- The body of `unpackBase128`'s `for i in range(5)` loop, with `fuel` the
number of remaining iterations.  Exhausting the fuel is the fall-through
after the loop. -/
def unpackBase128Go (result : Nat) (data : List Nat) : Nat → Except PyExc (Nat × List Nat)
  | 0 =>
    -- make sure not to exceed the size bound
    .error (.ttLibError "UIntBase128-encoded sequence is longer than 5 bytes")
  | fuel + 1 =>
    match data with
    | [] => .error (.ttLibError "not enough data to unpack UIntBase128")
    | code :: data =>
      -- if any of the top seven bits are set then we're about to overflow
      if result &&& 0xFE000000 ≠ 0 then
        .error (.ttLibError "UIntBase128 value exceeds 2**32-1")
      else
        -- set current value = old value times 128 bitwise-or (byte bitwise-and 127)
        let result := (result <<< 7) ||| (code &&& 0x7f)
        -- repeat until the most significant bit of byte is false
        if code &&& 0x80 = 0 then .ok (result, data)
        else unpackBase128Go result data fuel

/-- `unpackBase128(data)` from the source: read one to five bytes of
UIntBase128-encoded input, return the decoded integer plus leftover data. -/
def unpackBase128 (data : List Nat) : Except PyExc (Nat × List Nat) :=
  match data with
  | [] => .error (.ttLibError "not enough data to unpack UIntBase128")
  | b :: _ =>
    -- font must be rejected if UIntBase128 value starts with 0x80
    if b = 0x80 then
      .error (.ttLibError "UIntBase128 value must not start with leading zeros")
    else unpackBase128Go 0 data 5

/-- `base128Size(n)` from the source: length in bytes of the UIntBase128
encoding of `n` (`size = 1; while n >= 128: size += 1; n >>= 7`). -/
def base128Size (n : Nat) : Nat :=
  if n < 128 then 1 else 1 + base128Size (n >>> 7)
decreasing_by simp only [Nat.shiftRight_eq_div_pow]; omega

/-- The byte list emitted by `packBase128`'s loop for a given size: the
high-to-low 7-bit groups of `n`, with the continuation bit set on every byte
but the last. -/
def base128Bytes (n size : Nat) : List Nat :=
  (List.range size).map (fun i =>
    let b := (n >>> (7 * (size - i - 1))) &&& 0x7f
    if i < size - 1 then b ||| 0x80 else b)

/-- `packBase128(n)` from the source: shortest-form UIntBase128 encoding. -/
def packBase128 (n : Nat) : Except PyExc (List Nat) :=
  if n ≥ 2 ^ 32 then
    .error (.ttLibError "UIntBase128 format requires 0 <= integer <= 2**32-1")
  else
    .ok (base128Bytes n (base128Size n))

/-- The decoder's accumulator after consuming `i` bytes of `data`, starting
from `acc`: the claim's "accumulator ... before a further 7-bit left
shift". -/
def base128AccFrom (acc : Nat) (data : List Nat) : Nat → Nat
  | 0 => acc
  | i + 1 => (base128AccFrom acc data i <<< 7) ||| (data.getD i 0 &&& 0x7f)

/-- The rejection condition claimed for `unpackBase128`, following the
claim's wording: the input is empty, or its first byte is `0x80`, or the
accumulator has one of its top seven bits set before a further 7-bit left
shift (at a reached iteration), or the input is exhausted before a byte with
clear most-significant bit, or five bytes are consumed without such a
terminating byte. -/
def base128Rejects (data : List Nat) : Prop :=
  data = [] ∨
  (data ≠ [] ∧ data.getD 0 0 = 0x80) ∨
  (∃ i, 1 ≤ i ∧ i ≤ 4 ∧ i < data.length ∧
    (∀ j, j < i → data.getD j 0 &&& 0x80 ≠ 0) ∧
    base128AccFrom 0 data i &&& 0xFE000000 ≠ 0) ∨
  (data ≠ [] ∧ data.length ≤ 4 ∧ ∀ j, j < data.length → data.getD j 0 &&& 0x80 ≠ 0) ∨
  (5 ≤ data.length ∧ ∀ j, j < 5 → data.getD j 0 &&& 0x80 ≠ 0)

/-! ## Triplet coordinate codec (`_decodeTriplets` / `_encodeTriplets`) -/

/-- `withSign(flag, baseval)` from `_decodeTriplets`:
`baseval if flag & 1 else -baseval`. -/
def withSign (flag : Nat) (baseval : Nat) : Int :=
  if flag &&& 1 ≠ 0 then (baseval : Int) else -(baseval : Int)

/-- One iteration of the `_decodeTriplets` point loop: from the flag byte and
the unconsumed triplet bytes, produce the on-curve bit, the relative deltas
`(dx, dy)`, and the number of triplet bytes consumed.  Byte reads use
`getD _ 0`; the source's `assert tripletIndex + nBytes <= nTriplets` guards
reads past the end. -/
def decodePoint (flagByte : Nat) (t : List Nat) : Bool × Int × Int × Nat :=
  let onCurve := flagByte >>> 7 = 0
  let flag := flagByte &&& 0x7f
  let nBytes :=
    if flag < 84 then 1 else if flag < 120 then 2 else if flag < 124 then 3 else 4
  if flag < 10 then
    (onCurve, 0, withSign flag (((flag &&& 14) <<< 7) + t.getD 0 0), nBytes)
  else if flag < 20 then
    (onCurve, withSign flag ((((flag - 10) &&& 14) <<< 7) + t.getD 0 0), 0, nBytes)
  else if flag < 84 then
    let b0 := flag - 20
    let b1 := t.getD 0 0
    (onCurve, withSign flag (1 + (b0 &&& 0x30) + (b1 >>> 4)),
      withSign (flag >>> 1) (1 + ((b0 &&& 0x0c) <<< 2) + (b1 &&& 0x0f)), nBytes)
  else if flag < 120 then
    let b0 := flag - 84
    (onCurve, withSign flag (1 + ((b0 / 12) <<< 8) + t.getD 0 0),
      withSign (flag >>> 1) (1 + (((b0 % 12) >>> 2) <<< 8) + t.getD 1 0), nBytes)
  else if flag < 124 then
    let b2 := t.getD 1 0
    (onCurve, withSign flag ((t.getD 0 0 <<< 4) + (b2 >>> 4)),
      withSign (flag >>> 1) (((b2 &&& 0x0f) <<< 8) + t.getD 2 0), nBytes)
  else
    (onCurve, withSign flag ((t.getD 0 0 <<< 8) + t.getD 1 0),
      withSign (flag >>> 1) ((t.getD 2 0 <<< 8) + t.getD 3 0), nBytes)

/-- The `_decodeTriplets` point loop: walk the per-point flag bytes,
consuming triplet bytes and accumulating absolute coordinates from `(x, y)`.
Returns the coordinates, the on-curve flags, and the unconsumed tail of the
triplet stream. -/
def decodeTripletsGo : List Nat → List Nat → Int → Int → List (Int × Int) × List Bool × List Nat
  | [], t, _, _ => ([], [], t)
  | f :: fs, t, x, y =>
    let r := decodePoint f t
    let x := x + r.2.1
    let y := y + r.2.2.1
    let rest := decodeTripletsGo fs (t.drop r.2.2.2) x y
    ((x, y) :: rest.1, r.1 :: rest.2.1, rest.2.2)

/-- One iteration of the `_encodeTriplets` point loop: encode one relative
point `(x, y)` with its on-curve bit as a flag byte plus one to four triplet
bytes.  A coordinate of magnitude `≥ 65536` makes the byte-array append in
the source raise `OverflowError`. -/
def encodePoint (x y : Int) (onCurve : Bool) : Except PyExc (Nat × List Nat) :=
  let absX := x.natAbs
  let absY := y.natAbs
  let onCurveBit := if onCurve then 0 else 128
  let xSignBit := if x < 0 then 0 else 1
  let ySignBit := if y < 0 then 0 else 1
  let xySignBits := xSignBit + 2 * ySignBit
  if x = 0 ∧ absY < 1280 then
    .ok (onCurveBit + (((absY &&& 0xf00) >>> 7) + ySignBit), [absY &&& 0xff])
  else if y = 0 ∧ absX < 1280 then
    .ok (onCurveBit + 10 + (((absX &&& 0xf00) >>> 7) + xSignBit), [absX &&& 0xff])
  else if absX < 65 ∧ absY < 65 then
    .ok (onCurveBit + 20 + ((absX - 1) &&& 0x30) + (((absY - 1) &&& 0x30) >>> 2) + xySignBits,
      [(((absX - 1) &&& 0xf) <<< 4) ||| ((absY - 1) &&& 0xf)])
  else if absX < 769 ∧ absY < 769 then
    .ok (onCurveBit + 84 + 12 * (((absX - 1) &&& 0x300) >>> 8) + (((absY - 1) &&& 0x300) >>> 6)
        + xySignBits,
      [(absX - 1) &&& 0xff, (absY - 1) &&& 0xff])
  else if absX < 4096 ∧ absY < 4096 then
    .ok (onCurveBit + 120 + xySignBits,
      [absX >>> 4, ((absX &&& 0xf) <<< 4) ||| (absY >>> 8), absY &&& 0xff])
  else if absX < 65536 ∧ absY < 65536 then
    .ok (onCurveBit + 124 + xySignBits,
      [absX >>> 8, absX &&& 0xff, absY >>> 8, absY &&& 0xff])
  else .error .overflowError

/-- The `_encodeTriplets` point loop over relative coordinates paired with
their on-curve bits, returning the flag bytes and the triplet bytes. -/
def encodeTripletsGo : List ((Int × Int) × Bool) → Except PyExc (List Nat × List Nat)
  | [] => .ok ([], [])
  | (c, onCurve) :: ps => do
    let (f, t) ← encodePoint c.1 c.2 onCurve
    let (fs, ts) ← encodeTripletsGo ps
    .ok (f :: fs, t ++ ts)

/-- Helper for `absoluteToRelative`: deltas relative to the previous point
`(px, py)`. -/
def absoluteToRelativeGo (px py : Int) : List (Int × Int) → List (Int × Int)
  | [] => []
  | (x, y) :: cs => (x - px, y - py) :: absoluteToRelativeGo x y cs

/-- `GlyphCoordinates.absoluteToRelative`.  Modelled from the spec: the
method lives in `fontTools.ttLib.tables._g_l_y_f`, which is not part of the
sources here; §4.4 step 2 says "compute relative coordinates", the per-point
deltas from the previous point, starting at `(0, 0)`. -/
def absoluteToRelative (coords : List (Int × Int)) : List (Int × Int) :=
  absoluteToRelativeGo 0 0 coords

/-! ## Glyph data model -/

/-- A glyph bounding box (`xMin, yMin, xMax, yMax`, each a signed 16-bit
value in a compiled table). -/
structure BBox where
  xMin : Int
  yMin : Int
  xMax : Int
  yMax : Int
  deriving Repr, DecidableEq

/-- A component of a composite glyph.  Modelled from the spec:
`fontTools.ttLib.tables._g_l_y_f.GlyphComponent` is not part of the sources
here; §3 and §4.3 step 6 treat the component record as opaque bytes whose
serialised form declares the "more-components" and "have-instructions"
flags. -/
structure GlyphComponent where
  payload : List Nat
  deriving Repr, DecidableEq

/-- `GlyphComponent.compile(more, haveInstructions, glyfTable)`.  Modelled
from the spec: a flags byte carrying the "more-components" bit and the
"have-instructions" bit, a length byte, then the opaque component payload. -/
def compileComponent (more haveInstructions : Bool) (c : GlyphComponent) : List Nat :=
  [(if more then 1 else 0) + (if haveInstructions then 2 else 0), c.payload.length]
    ++ c.payload

/-- `GlyphComponent.decompile(data, glyfTable)`.  Modelled from the spec:
reads one component record off the front of `data` and returns its
"more-components" flag, its "have-instructions" flag, the component, and the
leftover data. -/
def decompileComponent (data : List Nat) :
    Except PyExc (Bool × Bool × GlyphComponent × List Nat) :=
  match data with
  | flags :: len :: rest =>
    if rest.length < len then .error .indexError
    else .ok (flags &&& 1 ≠ 0, flags &&& 2 ≠ 0, ⟨rest.take len⟩, rest.drop len)
  | _ => .error .indexError

/-- A glyph: empty, simple (contour end points, on-curve bits, absolute
coordinates, instruction bytecode, stored bounding box), or composite
(components, optional instruction bytecode, stored bounding box).
`endPtsOfContours` entries are `Int` as in the source, where the decoder's
running `endPoint` starts at `-1`. -/
inductive Glyph where
  | empty
  | simple (endPts : List Int) (onCurve : List Bool) (coords : List (Int × Int))
      (instrs : List Nat) (bbox : BBox)
  | composite (comps : List GlyphComponent) (instrs : Option (List Nat)) (bbox : BBox)
  deriving Repr, DecidableEq

/-- `Glyph.numberOfContours`: `0` for an empty glyph, the contour count for a
simple glyph, `-1` for a composite (`Glyph.isComposite` in
`fontTools.ttLib.tables._g_l_y_f` tests `numberOfContours == -1`; the spec
§3 says "negative = composite"). -/
def Glyph.numberOfContours : Glyph → Int
  | .empty => 0
  | .simple endPts _ _ _ _ => (endPts.length : Int)
  | .composite _ _ _ => -1

/-- `calcIntBounds(coordinates)` (and `Glyph.recalcBounds`).  Modelled from
the spec: the source imports it from `fontTools.misc.arrayTools`, whose copy
here predates the function; §4.3 step 6 defines the computed bounding box as
"the exact integer min/max of coordinates" (and `(0, 0, 0, 0)` for no
points). -/
def calcIntBounds (coords : List (Int × Int)) : BBox :=
  match coords with
  | [] => ⟨0, 0, 0, 0⟩
  | (x, y) :: cs =>
    cs.foldl (fun (b : BBox) (c : Int × Int) =>
      ⟨min b.xMin c.1, min b.yMin c.2, max b.xMax c.1, max b.yMax c.2⟩) ⟨x, y, x, y⟩

/-! ## Glyf transform — encode (`WOFF2GlyfTable.transform`)

The source's `_encodeGlyph` and its helpers append to the seven shared
sub-streams held on the table object.  The embedding computes each glyph's
contribution to every stream (`EncParts`); the streams are the
concatenations of the per-glyph parts in glyph order, exactly as produced by
the source's sequential appends. -/

/-- One glyph's contribution to the seven sub-streams, plus whether its
bounding-box bitmap bit is set (`_encodeBBox`). -/
structure EncParts where
  nContour : List Nat
  nPoints : List Nat
  flags : List Nat
  glyph : List Nat
  comp : List Nat
  instr : List Nat
  hasBBox : Bool
  bboxBytes : List Nat
  deriving Repr

/-- `sstruct.pack(bboxFormat, glyph)`: the four bounding-box fields as
big-endian signed 16-bit values. -/
def packBBox (b : BBox) : Except PyExc (List Nat) := do
  let a ← packInt16 b.xMin
  let c ← packInt16 b.yMin
  let d ← packInt16 b.xMax
  let e ← packInt16 b.yMax
  .ok (a ++ c ++ d ++ e)

/-- The `_encodeCoordinates` loop over `endPtsOfContours`: the 255UInt16
point count of each contour, starting from `lastEndPoint = -1`. -/
def encNPointsGo (lastEndPoint : Int) : List Int → Except PyExc (List Nat)
  | [] => .ok []
  | endPoint :: es => do
    let b ← pack255UShort (endPoint - lastEndPoint)
    let r ← encNPointsGo endPoint es
    .ok (b ++ r)

/-- The `_encodeComponents` loop: every component but the last is compiled
with `more = 1` and `haveInstructions = 0`; the last with `more = 0` and
`haveInstructions` true iff the glyph carries a program. -/
def encComponentsGo (haveInstrAtLast : Bool) : List GlyphComponent → List Nat
  | [] => []
  | [c] => compileComponent false haveInstrAtLast c
  | c :: c₂ :: cs => compileComponent true false c ++ encComponentsGo haveInstrAtLast (c₂ :: cs)

/-- `_encodeGlyph(glyphID)` and its helpers, as the glyph's per-stream
contributions.  `_encodeInstructions` appends the 255UInt16 instruction
length to the glyph stream and the bytecode to the instruction stream;
`_encodeBBox` omits a simple glyph's bounding box exactly when it equals the
computed one. -/
def encodeGlyphParts : Glyph → Except PyExc EncParts
  | .empty => do
    let nc ← packInt16 0
    .ok ⟨nc, [], [], [], [], [], false, []⟩
  | .simple endPts onCurve coords instrs bbox => do
    let nc ← packInt16 (endPts.length : Int)
    let nPoints ← encNPointsGo (-1) endPts
    -- assert len(glyph.coordinates) == len(glyph.flags)
    if coords.length ≠ onCurve.length then .error .assertionError
    let (flagBytes, tripletBytes) ← encodeTripletsGo ((absoluteToRelative coords).zip onCurve)
    let instrLen ← pack255UShort (instrs.length : Int)
    if bbox = calcIntBounds coords then
      .ok ⟨nc, nPoints, flagBytes, tripletBytes ++ instrLen, [], instrs, false, []⟩
    else do
      let bb ← packBBox bbox
      .ok ⟨nc, nPoints, flagBytes, tripletBytes ++ instrLen, [], instrs, true, bb⟩
  | .composite comps instrs bbox => do
    let nc ← packInt16 (-1)
    -- with no components the loop leaves haveInstructions = 0
    let haveInstructions := instrs.isSome ∧ comps ≠ []
    let compBytes := encComponentsGo instrs.isSome comps
    let (glyphBytes, instrBytes) ←
      if h : haveInstructions then do
        let l := instrs.get (by simpa [haveInstructions] using h.1)
        let instrLen ← pack255UShort (l.length : Int)
        .ok ((instrLen, l) : List Nat × List Nat)
      else .ok ([], [])
    let bb ← packBBox bbox
    .ok ⟨nc, [], [], glyphBytes, compBytes, instrBytes, true, bb⟩

/-- `encodeGlyphParts` over the whole glyph list. -/
def encodeAllParts : List Glyph → Except PyExc (List EncParts)
  | [] => .ok []
  | g :: gs => do
    let p ← encodeGlyphParts g
    let ps ← encodeAllParts gs
    .ok (p :: ps)

/-- `((numGlyphs + 31) >> 5) << 2`: the bounding-box bitmap byte count. -/
def bboxBitmapSize (numGlyphs : Nat) : Nat := ((numGlyphs + 31) >>> 5) <<< 2

/-- `self.bboxBitmap[glyphID >> 3] |= 0x80 >> (glyphID & 7)` from
`_encodeBBox`. -/
def setBBoxBit (bitmap : List Nat) (glyphID : Nat) : List Nat :=
  bitmap.set (glyphID >>> 3) (bitmap.getD (glyphID >>> 3) 0 ||| (0x80 >>> (glyphID &&& 7)))

/-- Apply every marked glyph's bitmap write, in glyph order. -/
def buildBitmap (bitmap : List Nat) (glyphID : Nat) : List EncParts → List Nat
  | [] => bitmap
  | p :: ps =>
    buildBitmap (if p.hasBBox then setBBoxBit bitmap glyphID else bitmap) (glyphID + 1) ps

/-- The in-memory `glyf` table: the glyphs in glyph order (`numGlyphs` is
their count) and the `indexFormat` taken from `head.indexToLocFormat`. -/
structure GlyfTable where
  glyphs : List Glyph
  indexFormat : Nat
  deriving Repr, DecidableEq

/-- `WOFF2GlyfTable.transform(ttFont)`: the 36-byte header
(`woff2GlyfTableFormat`), then the seven sub-streams in `subStreams` order,
with the bounding-box bitmap prepended to the bbox stream. -/
def transform (t : GlyfTable) : Except PyExc (List Nat) := do
  let numGlyphs := t.glyphs.length
  let parts ← encodeAllParts t.glyphs
  let nContourStream := (parts.map (·.nContour)).flatten
  let nPointsStream := (parts.map (·.nPoints)).flatten
  let flagStream := (parts.map (·.flags)).flatten
  let glyphStream := (parts.map (·.glyph)).flatten
  let compositeStream := (parts.map (·.comp)).flatten
  let instructionStream := (parts.map (·.instr)).flatten
  let bitmap := buildBitmap (List.replicate (bboxBitmapSize numGlyphs) 0) 0 parts
  let bboxStream := bitmap ++ (parts.map (·.bboxBytes)).flatten
  let version ← packU32 0
  let ng ← packU16 numGlyphs
  let idx ← packU16 t.indexFormat
  let s1 ← packU32 nContourStream.length
  let s2 ← packU32 nPointsStream.length
  let s3 ← packU32 flagStream.length
  let s4 ← packU32 glyphStream.length
  let s5 ← packU32 compositeStream.length
  let s6 ← packU32 bboxStream.length
  let s7 ← packU32 instructionStream.length
  .ok (version ++ ng ++ idx ++ s1 ++ s2 ++ s3 ++ s4 ++ s5 ++ s6 ++ s7
    ++ nContourStream ++ nPointsStream ++ flagStream ++ glyphStream
    ++ compositeStream ++ bboxStream ++ instructionStream)

/-! ## Glyf transform — decode (`WOFF2GlyfTable.reconstruct`) -/

/-- The mutable sub-stream state carried through `_decodeGlyph` and its
helpers; each decoder consumes bytes off the front of its stream, as the
source's `self.xxxStream = self.xxxStream[consumed:]` slicing does.
(`nContourStream` is parsed up front; `bboxBitmap` is read-only.) -/
structure DecState where
  nPointsStream : List Nat
  flagStream : List Nat
  glyphStream : List Nat
  compositeStream : List Nat
  bboxStream : List Nat
  instructionStream : List Nat
  deriving Repr, DecidableEq

/-- `_decodeInstructions(glyph)`: a 255UInt16 length off the glyph stream,
then that many bytecode bytes off the instruction stream (`ttProgram`
bytecode is an opaque byte payload). -/
def decInstructions (s : DecState) : Except PyExc (List Nat × DecState) := do
  let (len, gs) ← unpack255UShort s.glyphStream
  .ok (s.instructionStream.take len,
    { s with glyphStream := gs, instructionStream := s.instructionStream.drop len })

/-- The `_decodeComponents` `while more` loop, with fuel (each component
record consumes at least two bytes, so `data.length + 1` iterations always
suffice).  Accumulates the or of the components' have-instructions flags. -/
def decComponentsGo : Nat → List Nat → Except PyExc (List GlyphComponent × Bool × List Nat)
  | 0, _ => .error .indexError
  | fuel + 1, data => do
    let (more, haveInstr, c, rest) ← decompileComponent data
    if more then do
      let (cs, hI, r) ← decComponentsGo fuel rest
      .ok (c :: cs, haveInstr || hI, r)
    else .ok ([c], haveInstr, rest)

/-- `_decodeComponents(glyph)` without the trailing instruction decode
(which the caller performs when the accumulated have-instructions flag is
set). -/
def decComponents (s : DecState) : Except PyExc (List GlyphComponent × Bool × DecState) := do
  let (cs, hI, rest) ← decComponentsGo (s.compositeStream.length + 1) s.compositeStream
  .ok (cs, hI, { s with compositeStream := rest })

/-- The `_decodeCoordinates` contour loop: one 255UInt16 point count per
contour, accumulated onto the running `endPoint` (which starts at `-1`). -/
def decNPointsGo (endPoint : Int) : Nat → List Nat → Except PyExc (List Int × List Nat)
  | 0, data => .ok ([], data)
  | n + 1, data => do
    let (ptsOfContour, rest) ← unpack255UShort data
    let e := endPoint + ptsOfContour
    let (es, r) ← decNPointsGo e n rest
    .ok (e :: es, r)

/-- `_decodeCoordinates(glyph)` (including `_decodeTriplets` and
`_decodeInstructions`): returns the contour end points, absolute
coordinates, on-curve flags and instruction bytes of a simple glyph with
`nc ≥ 1` contours. -/
def decCoordinates (nc : Nat) (s : DecState) :
    Except PyExc ((List Int × List (Int × Int) × List Bool × List Nat) × DecState) := do
  let (endPts, nps) ← decNPointsGo (-1) nc s.nPointsStream
  let s := { s with nPointsStream := nps }
  -- _decodeTriplets: nPoints = glyph.endPtsOfContours[-1] + 1
  let nPoints := (endPts.getLastD (-1) + 1).toNat
  if nPoints > s.flagStream.length then .error (.ttLibError "not enough flagStream data")
  else
  let flagsData := s.flagStream.take nPoints
  let s := { s with flagStream := s.flagStream.drop nPoints }
  -- assert nPoints <= nTriplets
  if nPoints > s.glyphStream.length then .error .assertionError
  else
  let r := decodeTripletsGo flagsData s.glyphStream 0 0
  let s := { s with glyphStream := r.2.2 }
  let (instrs, s) ← decInstructions s
  .ok ((endPts, r.1, r.2.1, instrs), s)

/-- `_decodeBBox(glyphID, glyph)`: if the glyph's bitmap bit (MSB-first
within bytes) is set, read an explicit 8-byte bounding box off the bbox
stream; a composite without the bit is an error; a simple glyph without it
gets `recalcBounds` (the computed bounds of its coordinates). -/
def decBBox (bitmap : List Nat) (glyphID : Nat) (isComposite : Bool)
    (coords : List (Int × Int)) (s : DecState) : Except PyExc (BBox × DecState) :=
  let haveBBox := bitmap.getD (glyphID >>> 3) 0 &&& (0x80 >>> (glyphID &&& 7)) ≠ 0
  if isComposite ∧ ¬haveBBox then .error (.ttLibError "no bbox values for composite glyph")
  else if haveBBox then
    match s.bboxStream with
    | a0 :: a1 :: b0 :: b1 :: c0 :: c1 :: d0 :: d1 :: rest =>
      .ok (⟨readInt16 a0 a1, readInt16 b0 b1, readInt16 c0 c1, readInt16 d0 d1⟩,
        { s with bboxStream := rest })
    | _ => .error .structError
  else .ok (calcIntBounds coords, s)

/-- `_decodeGlyph(glyphID)`: dispatch on the glyph's contour count. -/
def decodeGlyphAt (bitmap : List Nat) (glyphID : Nat) (nc : Int) (s : DecState) :
    Except PyExc (Glyph × DecState) :=
  if nc = 0 then .ok (.empty, s)
  else if nc < 0 then do
    let (cs, haveInstr, s) ← decComponents s
    let (instrs, s) ←
      if haveInstr then do
        let (l, s) ← decInstructions s
        Except.ok ((some l, s) : Option (List Nat) × DecState)
      else .ok (none, s)
    let (bbox, s) ← decBBox bitmap glyphID true [] s
    .ok (.composite cs instrs bbox, s)
  else do
    let (r, s) ← decCoordinates nc.toNat s
    let (bbox, s) ← decBBox bitmap glyphID false r.2.1 s
    .ok (.simple r.1 r.2.2.1 r.2.1 r.2.2.2 bbox, s)

/-- The `reconstruct` glyph loop over the parsed contour counts. -/
def decodeGlyphsGo (bitmap : List Nat) (glyphID : Nat) :
    List Int → DecState → Except PyExc (List Glyph)
  | [], _ => .ok []
  | nc :: ncs, s => do
    let (g, s) ← decodeGlyphAt bitmap glyphID nc s
    let gs ← decodeGlyphsGo bitmap (glyphID + 1) ncs s
    .ok (g :: gs)

/-- `array.array("h", bytes)` big-endian: the `nContourStream` as signed
16-bit values (a trailing odd byte is a `ValueError` in the source). -/
def parseInt16List : List Nat → Except PyExc (List Int)
  | [] => .ok []
  | a :: b :: rest => do
    let l ← parseInt16List rest
    .ok (readInt16 a b :: l)
  | _ => .error .valueError

/-- `WOFF2GlyfTable.reconstruct(data, ttFont)`: parse the 36-byte header,
split the seven sub-streams by their declared sizes (checking they fill the
input exactly), peel the bounding-box bitmap off the bbox stream, parse the
contour counts, and decode every glyph. -/
def reconstruct (data : List Nat) : Except PyExc GlyfTable := do
  if data.length < 36 then .error (.ttLibError "not enough glyf data")
  else
  let numGlyphs := readU16 (data.getD 4 0) (data.getD 5 0)
  let indexFormat := readU16 (data.getD 6 0) (data.getD 7 0)
  let s1 := readU32 (data.getD 8 0) (data.getD 9 0) (data.getD 10 0) (data.getD 11 0)
  let s2 := readU32 (data.getD 12 0) (data.getD 13 0) (data.getD 14 0) (data.getD 15 0)
  let s3 := readU32 (data.getD 16 0) (data.getD 17 0) (data.getD 18 0) (data.getD 19 0)
  let s4 := readU32 (data.getD 20 0) (data.getD 21 0) (data.getD 22 0) (data.getD 23 0)
  let s5 := readU32 (data.getD 24 0) (data.getD 25 0) (data.getD 26 0) (data.getD 27 0)
  let s6 := readU32 (data.getD 28 0) (data.getD 29 0) (data.getD 30 0) (data.getD 31 0)
  let s7 := readU32 (data.getD 32 0) (data.getD 33 0) (data.getD 34 0) (data.getD 35 0)
  if 36 + (s1 + s2 + s3 + s4 + s5 + s6 + s7) ≠ data.length then
    .error (.ttLibError "incorrect size of transformed glyf table")
  else
  let r := data.drop 36
  let nContourBytes := r.take s1
  let r := r.drop s1
  let nPointsStream := r.take s2
  let r := r.drop s2
  let flagStream := r.take s3
  let r := r.drop s3
  let glyphStream := r.take s4
  let r := r.drop s4
  let compositeStream := r.take s5
  let r := r.drop s5
  let bboxS := r.take s6
  let r := r.drop s6
  let instructionStream := r.take s7
  let bitmap := bboxS.take (bboxBitmapSize numGlyphs)
  let bboxStream := bboxS.drop (bboxBitmapSize numGlyphs)
  let nContours ← parseInt16List nContourBytes
  -- assert len(self.nContourStream) == self.numGlyphs
  if nContours.length ≠ numGlyphs then .error .assertionError
  else
  let glyphs ← decodeGlyphsGo bitmap 0 nContours
    ⟨nPointsStream, flagStream, glyphStream, compositeStream, bboxStream, instructionStream⟩
  .ok ⟨glyphs, indexFormat⟩

/-! ## Loca companion (`WOFF2LocaTable.compile`) -/

/-- The `'glyf' in ttFont` branch of `WOFF2LocaTable.compile`, compiling the
given `locations` with the `indexFormat` taken from the WOFF2 glyf table.
`max([])` in the source raises `ValueError`; a short-format offset `≥ 2^17`
or odd is a `TTLibError`; a long-format offset `≥ 2^32` overflows the
`array("I")`. -/
def locaCompile (indexFormat : Nat) (locations : List Nat) : Except PyExc (List Nat) :=
  match locations with
  | [] => .error .valueError
  | _ =>
    let maxLocation := locations.foldl Nat.max 0
    if indexFormat = 0 then
      if maxLocation ≥ 0x20000 then
        .error (.ttLibError "indexFormat is 0 but local offsets > 0x20000")
      else if ¬ locations.all (fun l => l % 2 = 0) then
        .error (.ttLibError "indexFormat is 0 but local offsets not multiples of 2")
      else .ok (locations.flatMap (fun l => [l / 2 / 256, l / 2 % 256]))
    else
      if locations.all (fun l => l < 2 ^ 32) then
        .ok (locations.flatMap (fun l => [l / 0x1000000 % 256, l / 0x10000 % 256,
          l / 256 % 256, l % 256]))
      else .error .overflowError

/-! ## Checksum engine (`_calcMasterChecksum` / `writeMasterChecksum`) -/

/-- Big-endian 32-bit byte quadruple of `n % 2^32` (unguarded; used where
the value is in range by construction). -/
def u32Bytes (n : Nat) : List Nat :=
  [n / 0x1000000 % 256, n / 0x10000 % 256, n / 256 % 256, n % 256]

/-- Big-endian 16-bit byte pair of `n % 2^16`. -/
def u16Bytes (n : Nat) : List Nat := [n / 256 % 256, n % 256]

/-- Sum of the big-endian 32-bit words of a (4-aligned) byte list. -/
def calcChecksumGo : List Nat → Nat
  | a :: b :: c :: d :: rest => readU32 a b c d + calcChecksumGo rest
  | _ => 0

/-- `calcChecksum(data)`.  Modelled from the spec: the source imports it
from `fontTools.ttLib.sfnt`, which is not part of the sources here; the sfnt
table checksum (glossary "checkSumAdjustment", §4.6 step 5) is the sum of
the big-endian 32-bit words of the data, zero-padded to a multiple of four
bytes, modulo `2^32`. -/
def calcChecksum (data : List Nat) : Nat :=
  (calcChecksumGo (data ++ List.replicate ((4 - data.length % 4) % 4) 0)) % 2 ^ 32

/-- The tag `head` as bytes. -/
def headTag : List Nat := [0x68, 0x65, 0x61, 0x64]

/-- The per-table checksum assignment of
`_calcSFNTChecksumsLengthsAndOffsets`: the `head` table is checksummed with
its bytes `[8..12]` (`checkSumAdjustment`) replaced by zeros. -/
def tableCheckSum (tag data : List Nat) : Nat :=
  if tag = headTag then calcChecksum (data.take 8 ++ [0, 0, 0, 0] ++ data.drop 12)
  else calcChecksum data

/-- `getSearchRange(numTables, 16)`.  Modelled from the spec (§4.7):
`entrySelector = floor(log2 numTables)`, `searchRange = 2^entrySelector·16`,
`rangeShift = numTables·16 − searchRange`. -/
def getSearchRange (numTables : Nat) : Nat × Nat × Nat :=
  let entrySelector := Nat.log2 numTables
  let searchRange := 2 ^ entrySelector * 16
  (searchRange, entrySelector, numTables * 16 - searchRange)

/-- One synthetic sfnt directory entry (`SFNTDirectoryEntry.toString()`).
Modelled from the spec (§4.6 step 3): tag, checksum, offset and length,
big-endian. -/
def sfntEntryBytes (tag : List Nat) (checkSum origOffset origLength : Nat) : List Nat :=
  tag ++ u32Bytes checkSum ++ u32Bytes origOffset ++ u32Bytes origLength

/-- The synthetic sfnt directory built by `_calcMasterChecksum`: the fixed
12-byte header (sfntVersion, numTables and the search-range fields), then
one 16-byte entry per table in sorted tag order.  The entry list is taken
as given (already sorted, with per-table checksums and original
offsets/lengths assigned). -/
def sfntDirectory (sfntVersion : List Nat) (numTables : Nat)
    (entries : List (List Nat × Nat × Nat × Nat)) : List Nat :=
  let sr := getSearchRange numTables
  sfntVersion ++ u16Bytes numTables ++ u16Bytes sr.1 ++ u16Bytes sr.2.1 ++ u16Bytes sr.2.2
    ++ (entries.map (fun e => sfntEntryBytes e.1 e.2.1 e.2.2.1 e.2.2.2)).flatten

/-- `_calcMasterChecksum`: the sum of the per-table checksums and the
synthetic directory's checksum, masked to 32 bits; the adjustment is
`(0xB1B0AFBA - checksum) & 0xffffffff` (Python's `&` of a possibly negative
int is arithmetic mod `2^32`). -/
def calcMasterChecksum (checksums : List Nat) (directory : List Nat) : Nat :=
  ((0xB1B0AFBA -
      (((checksums.sum + calcChecksum directory) &&& 0xffffffff : Nat) : Int))
    % (2 ^ 32 : Int)).toNat

/-- Overwrite `buf[off .. off + bytes.length)` with `bytes` (the
`seek`/`write` pair on the transform buffer). -/
def spliceAt (buf : List Nat) (off : Nat) (bytes : List Nat) : List Nat :=
  buf.take off ++ bytes ++ buf.drop (off + bytes.length)

/-- `writeMasterChecksum`: write the big-endian 32-bit `checkSumAdjustment`
into the transform buffer at the head table's offset plus 8. -/
def writeMasterChecksum (buf : List Nat) (headOffset : Nat)
    (checksums : List Nat) (directory : List Nat) : List Nat :=
  spliceAt buf (headOffset + 8) (u32Bytes (calcMasterChecksum checksums directory))

/-! ## Directory codec (`WOFF2DirectoryEntry`) -/

/-- A four-character tag as its byte values. -/
def tagBytes (s : String) : List Nat := s.toList.map Char.toNat

/-- `woff2KnownTags`: the fixed 63-entry known-tag table. -/
def woff2KnownTags : List (List Nat) :=
  (["cmap", "head", "hhea", "hmtx", "maxp", "name", "OS/2", "post", "cvt ",
    "fpgm", "glyf", "loca", "prep", "CFF ", "VORG", "EBDT", "EBLC", "gasp",
    "hdmx", "kern", "LTSH", "PCLT", "VDMX", "vhea", "vmtx", "BASE", "GDEF",
    "GPOS", "GSUB", "EBSC", "JSTF", "MATH", "CBDT", "CBLC", "COLR", "CPAL",
    "SVG ", "sbix", "acnt", "avar", "bdat", "bloc", "bsln", "cvar", "fdsc",
    "feat", "fmtx", "fvar", "gvar", "hsty", "just", "lcar", "mort", "morx",
    "opbd", "prop", "trak", "Zapf", "Silf", "Glat", "Gloc", "Feat", "Sill"]).map tagBytes

/-- `woff2UnknownTagIndex = 0x3F`. -/
def woff2UnknownTagIndex : Nat := 0x3F

/-- `getKnownTagIndex(tag)`: the index of `tag` in `woff2KnownTags`, or 63
(`woff2UnknownTagIndex`) when absent — `findIdx` returns the list's length,
which is 63, exactly the source's fallback. -/
def getKnownTagIndex (tag : List Nat) : Nat :=
  woff2KnownTags.findIdx (· == tag)

/-- The tag `glyf` as bytes. -/
def glyfTag : List Nat := tagBytes "glyf"

/-- The tag `loca` as bytes. -/
def locaTag : List Nat := tagBytes "loca"

/-- `woff2TransformedTableTags = ('glyf', 'loca')`. -/
def woff2TransformedTableTags : List (List Nat) := [glyfTag, locaTag]

/-- A WOFF2 directory entry: the flags byte, the 4-byte tag, the original
(uncompressed) length, and `length` (the transform length for `glyf` and
`loca`). -/
structure WOFF2DirectoryEntry where
  flags : Nat
  tag : List Nat
  origLength : Nat
  length : Nat
  deriving Repr, DecidableEq

/-- `WOFF2DirectoryEntry.toString()`: the flags byte, the explicit tag bytes
when bits 0–5 of the flags are all set, the UIntBase128 `origLength`, and
for `glyf`/`loca` the UIntBase128 transform length. -/
def entryToString (e : WOFF2DirectoryEntry) : Except PyExc (List Nat) := do
  let tagPart := if e.flags &&& 0x3F = 0x3F then e.tag else []
  let lenPart ← packBase128 e.origLength
  let transPart ←
    if e.tag ∈ woff2TransformedTableTags then packBase128 e.length
    else Except.ok ([] : List Nat)
  .ok ([e.flags] ++ tagPart ++ lenPart ++ transPart)

/-- `WOFF2DirectoryEntry.fromString(data)`: parse one directory entry and
return it with the leftover data. -/
def entryFromString (data : List Nat) : Except PyExc (WOFF2DirectoryEntry × List Nat) := do
  match data with
  | [] => .error (.ttLibError "cannot read table flags: not enough data")
  | flags :: data =>
    let (tag, data) ←
      if flags &&& 0x3F = 0x3F then
        -- if bits [0..5] of the flags byte == 63, read a 4-byte arbitrary tag value
        if data.length < 4 then
          Except.error (PyExc.ttLibError "cannot read table tag: not enough data")
        else Except.ok (data.take 4, data.drop 4)
      else
        -- otherwise, tag is derived from a fixed known-tags table
        Except.ok (woff2KnownTags.getD (flags &&& 0x3F) [], data)
    if flags &&& 0xC0 ≠ 0 then .error (.ttLibError "bits 6-7 are reserved and must be 0")
    else do
      let (origLength, data) ← unpackBase128 data
      if tag ∈ woff2TransformedTableTags then do
        let (length, data) ← unpackBase128 data
        if tag = locaTag ∧ length ≠ 0 then
          .error (.ttLibError "the transformLength of the loca table must be 0")
        else .ok (⟨flags, tag, origLength, length⟩, data)
      else .ok (⟨flags, tag, origLength, origLength⟩, data)

/-! ## Validity of a glyf table

The "valid TrueType glyf table" hypotheses of the round-trip law: the
structural invariants a compiled `glyf` table satisfies by format
(contour/point counts in range, coordinates matching the contour ends,
relative deltas of magnitude below `2^16`, bounding boxes in `int16`,
composite glyphs with at least one component) plus crude total-size bounds
making every sub-stream size fit a `uint32`. -/

/-- Bounding-box fields representable as signed 16-bit values. -/
def validBBox (b : BBox) : Prop :=
  -0x8000 ≤ b.xMin ∧ b.xMin < 0x8000 ∧ -0x8000 ≤ b.yMin ∧ b.yMin < 0x8000 ∧
  -0x8000 ≤ b.xMax ∧ b.xMax < 0x8000 ∧ -0x8000 ≤ b.yMax ∧ b.yMax < 0x8000

/-- Per-glyph validity. -/
def validGlyph : Glyph → Prop
  | .empty => True
  | .simple endPts onCurve coords instrs bbox =>
    endPts ≠ [] ∧ endPts.length ≤ 32767 ∧
    List.Chain (fun a b => a ≤ b ∧ b ≤ a + 65535) (-1) endPts ∧
    coords.length = (endPts.getLastD (-1) + 1).toNat ∧
    onCurve.length = coords.length ∧
    (∀ p ∈ absoluteToRelative coords, p.1.natAbs < 65536 ∧ p.2.natAbs < 65536) ∧
    instrs.length ≤ 65535 ∧ (∀ b ∈ instrs, b < 256) ∧
    validBBox bbox
  | .composite comps instrs bbox =>
    comps ≠ [] ∧
    (∀ c ∈ comps, c.payload.length ≤ 255 ∧ ∀ b ∈ c.payload, b < 256) ∧
    (∀ l ∈ instrs, l.length ≤ 65535 ∧ ∀ b ∈ l, b < 256) ∧
    validBBox bbox

/-- The number of points of a glyph (zero for empty and composite). -/
def glyphPointCount : Glyph → Nat
  | .simple endPts _ _ _ _ => (endPts.getLastD (-1) + 1).toNat
  | _ => 0

/-- The number of contours of a glyph (zero for empty and composite). -/
def glyphContourCount : Glyph → Nat
  | .simple endPts _ _ _ _ => endPts.length
  | _ => 0

/-- The serialised byte count of a composite glyph's components. -/
def glyphCompBytes : Glyph → Nat
  | .composite comps _ _ => (comps.map (fun c => 2 + c.payload.length)).sum
  | _ => 0

/-- The instruction byte count of a glyph. -/
def glyphInstrLen : Glyph → Nat
  | .simple _ _ _ instrs _ => instrs.length
  | .composite _ instrs _ => (instrs.getD []).length
  | .empty => 0

/-- Table-level validity: every glyph valid, the counts in 16-bit range,
and total sizes small enough that each sub-stream length fits a `uint32`. -/
def validTable (t : GlyfTable) : Prop :=
  t.glyphs.length < 65536 ∧ t.indexFormat < 65536 ∧
  (∀ g ∈ t.glyphs, validGlyph g) ∧
  (t.glyphs.map glyphPointCount).sum ≤ 0xFFFFFF ∧
  (t.glyphs.map glyphContourCount).sum ≤ 0xFFFFFF ∧
  (t.glyphs.map glyphCompBytes).sum ≤ 0xFFFFFFF ∧
  (t.glyphs.map glyphInstrLen).sum ≤ 0xFFFFFF

/-- Accumulate relative deltas into absolute coordinates from `(px, py)`:
the decoder's `x += dx; y += dy` accumulation, and the inverse of
`absoluteToRelativeGo`. -/
def accumFrom (px py : Int) : List (Int × Int) → List (Int × Int)
  | [] => []
  | (dx, dy) :: ds => (px + dx, py + dy) :: accumFrom (px + dx) (py + dy) ds

/-- The shape of the round-trip property for one encoded point: the encoder
succeeds with a flag byte and one to four triplet bytes, and `decodePoint`
on that flag recovers the on-curve bit, the deltas, and the byte count. -/
def PointRoundTrip (x y : Int) (onCurve : Bool) : Prop :=
  ∃ f tb, encodePoint x y onCurve = .ok (f, tb) ∧ f < 256 ∧
    (1 ≤ tb.length ∧ tb.length ≤ 4) ∧ (∀ b ∈ tb, b < 256) ∧
    ∀ rest, decodePoint f (tb ++ rest) = (onCurve, x, y, tb.length)

/-! # Theorems -/

/-! ## 255UInt16 helper lemmas -/

theorem pack255UShort_ok (i : Int) (h0 : 0 ≤ i) (h1 : i ≤ 0xFFFF) :
    pack255UShort i = .ok
      (if i.toNat < 253 then [i.toNat]
       else if i.toNat < 506 then [255, i.toNat - 253]
       else if i.toNat < 762 then [254, i.toNat - 506]
       else [253, i.toNat / 256, i.toNat % 256]) := by
  unfold pack255UShort
  rw [if_neg (by omega)]
  show (if i.toNat < 253 then _ else _) = _
  split_ifs <;> rfl

theorem unpack255UShort_append_pack (i : Int) (bs rest : List Nat)
    (h : pack255UShort i = .ok bs) :
    unpack255UShort (bs ++ rest) = .ok (i.toNat, rest) := by
  have h0 : 0 ≤ i := by
    by_contra hc
    unfold pack255UShort at h
    rw [if_pos (Or.inl (by omega))] at h
    exact absurd h (by simp)
  have h1 : i ≤ 0xFFFF := by
    by_contra hc
    unfold pack255UShort at h
    rw [if_pos (Or.inr (by omega))] at h
    exact absurd h (by simp)
  rw [pack255UShort_ok i h0 h1] at h
  set v := i.toNat with hv
  have hvb : v ≤ 0xFFFF := by omega
  by_cases hlt : v < 253
  · rw [if_pos hlt] at h
    injection h with h
    subst h
    simp only [List.cons_append, List.nil_append, unpack255UShort]
    rw [if_neg (by omega), if_neg (by omega), if_neg (by omega)]
  · rw [if_neg hlt] at h
    by_cases h2 : v < 506
    · rw [if_pos h2] at h
      injection h with h
      subst h
      have hv2 : v - 253 + 253 = v := by omega
      simp [unpack255UShort, hv2]
    · rw [if_neg h2] at h
      by_cases h3 : v < 762
      · rw [if_pos h3] at h
        injection h with h
        subst h
        have hv2 : v - 506 + 506 = v := by omega
        simp [unpack255UShort, hv2]
      · rw [if_neg h3] at h
        injection h with h
        subst h
        have hv2 : v / 256 * 256 + v % 256 = v := by omega
        simp [unpack255UShort, readU16, hv2]

/-- C4 round-trip helper on `Nat` values. -/
theorem unpack255_pack255 (v : Nat) (h : v < 65536) :
    ∃ bs, pack255UShort (v : Int) = .ok bs ∧ unpack255UShort bs = .ok (v, []) := by
  have hp := pack255UShort_ok (v : Int) (by omega) (by omega)
  refine ⟨_, hp, ?_⟩
  have := unpack255UShort_append_pack (v : Int) _ [] hp
  simpa using this

/-- C4: `pack255UShort` maps `[0, 253)` to one literal byte, `[253, 506)` to
`(255, v - 253)`, `[506, 762)` to `(254, v - 506)`, and `[762, 65536)` to
`(253, v` as big-endian uint16`)` — in particular `252 ↦ FC`, `253 ↦ FF 00`,
`506 ↦ FE 00`, `762 ↦ FD 02 FA` — and `unpack255UShort` inverts it with
empty leftover on all of `[0, 65536)`. -/
theorem c4_255UInt16_shortest_roundtrip (v : Nat) (h : v < 65536) :
    (v < 253 → pack255UShort (v : Int) = .ok [v]) ∧
    (253 ≤ v → v < 506 → pack255UShort (v : Int) = .ok [255, v - 253]) ∧
    (506 ≤ v → v < 762 → pack255UShort (v : Int) = .ok [254, v - 506]) ∧
    (762 ≤ v → pack255UShort (v : Int) = .ok [253, v / 256, v % 256]) ∧
    pack255UShort 252 = .ok [0xFC] ∧
    pack255UShort 253 = .ok [0xFF, 0x00] ∧
    pack255UShort 506 = .ok [0xFE, 0x00] ∧
    pack255UShort 762 = .ok [0xFD, 0x02, 0xFA] ∧
    (∃ bs, pack255UShort (v : Int) = .ok bs ∧ unpack255UShort bs = .ok (v, [])) := by
  have hp := pack255UShort_ok (v : Int) (by omega) (by omega)
  simp only [Int.toNat_natCast] at hp
  refine ⟨?_, ?_, ?_, ?_, by rfl, by rfl, by rfl, by rfl, unpack255_pack255 v h⟩
  · intro h1
    rw [hp, if_pos h1]
  · intro h1 h2
    rw [hp, if_neg (by omega), if_pos h2]
  · intro h1 h2
    rw [hp, if_neg (by omega), if_neg (by omega), if_pos h2]
  · intro h1
    rw [hp, if_neg (by omega), if_neg (by omega), if_neg (by omega)]

/-- C4 witness at `v = 300`. -/
theorem c4_255UInt16_shortest_roundtrip_witness :
    (300 : Nat) < 65536 ∧
    (∃ bs, pack255UShort ((300 : Nat) : Int) = .ok bs ∧
      unpack255UShort bs = .ok (300, [])) :=
  ⟨by omega, (c4_255UInt16_shortest_roundtrip 300 (by omega)).2.2.2.2.2.2.2.2⟩

/-- C10: a multi-byte 255UInt16 code with too little data raises the
dedicated `TTLibError`, but the empty input crashes on the unguarded
initial byte read instead of returning a pair or raising that error. -/
theorem c10_unpack255UShort_partial_on_empty :
    (∀ rest : List Nat, rest.length < 2 →
      unpack255UShort (253 :: rest) =
        .error (.ttLibError "not enough data to unpack 255UInt16")) ∧
    unpack255UShort [254] = .error (.ttLibError "not enough data to unpack 255UInt16") ∧
    unpack255UShort [255] = .error (.ttLibError "not enough data to unpack 255UInt16") ∧
    unpack255UShort [] = .error .indexError ∧
    (∀ msg, PyExc.indexError ≠ .ttLibError msg) := by
  refine ⟨?_, rfl, rfl, rfl, fun msg h => by injection h⟩
  intro rest hrest
  match rest, hrest with
  | [], _ => rfl
  | [a], _ => rfl

/-! ## UIntBase128 helper lemmas -/

theorem and127_eq_mod (x : Nat) : x &&& 0x7f = x % 128 := by
  have h := Nat.and_pow_two_sub_one_eq_mod x 7
  norm_num at h
  exact h

theorem byte_or80 : ∀ s, s < 128 → s ||| 0x80 = 128 + s ∧ (s ||| 0x80) &&& 0x7f = s ∧
    (s ||| 0x80) &&& 0x80 = 0x80 := by decide

theorem byte_lt128 : ∀ s, s < 128 → s &&& 0x7f = s ∧ s &&& 0x80 = 0 := by decide

theorem shiftLeft7_or (a s : Nat) (hs : s < 128) : (a <<< 7) ||| s = a * 128 + s := by
  rw [Nat.shiftLeft_eq]
  calc a * 2 ^ 7 ||| s = 2 ^ 7 * a ||| s := by rw [Nat.mul_comm]
    _ = 2 ^ 7 * a + s := (Nat.mul_add_lt_is_or (by omega) a).symm
    _ = a * 128 + s := by omega

theorem shiftRight7k (n k : Nat) : n >>> (7 * k) = n / 128 ^ k := by
  rw [Nat.shiftRight_eq_div_pow, pow_mul]
  norm_num

theorem div_pow_split (n m j : Nat) (hj : j ≤ m) :
    n / 128 ^ j = n / 128 ^ m * 128 ^ (m - j) + n % 128 ^ m / 128 ^ j := by
  have hpos : 0 < (128 : Nat) ^ m := pow_pos (by omega) m
  obtain ⟨q, r, hr, rfl⟩ : ∃ q r, r < 128 ^ m ∧ n = 128 ^ m * q + r :=
    ⟨n / 128 ^ m, n % 128 ^ m, Nat.mod_lt _ hpos, (Nat.div_add_mod n _).symm⟩
  have hpow : (128 : Nat) ^ m = 128 ^ j * 128 ^ (m - j) := by
    rw [← pow_add]
    congr 1
    omega
  have hq : (128 ^ m * q + r) / 128 ^ m = q := by
    rw [Nat.mul_add_div hpos, Nat.div_eq_of_lt hr, Nat.add_zero]
  have hrm : (128 ^ m * q + r) % 128 ^ m = r := by
    rw [Nat.mul_add_mod, Nat.mod_eq_of_lt hr]
  rw [hq, hrm]
  have hposj : 0 < (128 : Nat) ^ j := pow_pos (by omega) j
  calc (128 ^ m * q + r) / 128 ^ j
      = (128 ^ j * (128 ^ (m - j) * q) + r) / 128 ^ j := by
        rw [hpow, Nat.mul_assoc]
    _ = 128 ^ (m - j) * q + r / 128 ^ j := by rw [Nat.mul_add_div hposj]
    _ = q * 128 ^ (m - j) + r / 128 ^ j := by rw [Nat.mul_comm]

theorem septet_eq_of_mod (n m j : Nat) (hj : j < m) :
    (n % 128 ^ m) >>> (7 * j) % 128 = n >>> (7 * j) % 128 := by
  rw [shiftRight7k, shiftRight7k, div_pow_split n m j (by omega)]
  have h128 : (128 : Nat) ^ (m - j) % 128 = 0 := by
    have : (128 : Nat) ^ (m - j) = 128 ^ (m - j - 1) * 128 := by
      rw [← pow_succ]
      congr 1
      omega
    rw [this, Nat.mul_mod_left]
  rw [Nat.add_mod, Nat.mul_mod, h128, Nat.mul_zero, Nat.zero_mod, Nat.zero_add]
  omega

theorem base128Bytes_one (n : Nat) (hn : n < 128) : base128Bytes n 1 = [n] := by
  show [n &&& 0x7f] = [n]
  rw [(byte_lt128 n hn).1]

theorem base128Bytes_cons (n m : Nat) (hm : 1 ≤ m) (hn : n < 128 ^ (m + 1)) :
    base128Bytes n (m + 1) = (128 + n >>> (7 * m)) :: base128Bytes (n % 128 ^ m) m := by
  have htop : n >>> (7 * m) < 128 := by
    rw [shiftRight7k]
    apply Nat.div_lt_of_lt_mul
    calc n < 128 ^ (m + 1) := hn
      _ = 128 ^ m * 128 := by rw [pow_succ]
  unfold base128Bytes
  rw [List.range_succ_eq_map, List.map_cons, List.map_map]
  congr 1
  · have h0 : (0 : Nat) < m + 1 - 1 := by omega
    simp only [if_pos h0, Nat.sub_zero]
    have hb : n >>> (7 * (m + 1 - 1)) &&& 0x7f = n >>> (7 * m) := by
      rw [show m + 1 - 1 = m from rfl, and127_eq_mod, Nat.mod_eq_of_lt htop]
    rw [hb, (byte_or80 _ htop).1]
  · apply List.map_congr_left
    intro i hi
    rw [List.mem_range] at hi
    simp only [Function.comp]
    have harg : m + 1 - (i + 1) - 1 = m - i - 1 := by omega
    have hsep : n >>> (7 * (m - i - 1)) &&& 0x7f
        = (n % 128 ^ m) >>> (7 * (m - i - 1)) &&& 0x7f := by
      rw [and127_eq_mod, and127_eq_mod, septet_eq_of_mod n m (m - i - 1) (by omega)]
    rw [harg]
    by_cases hcond : i + 1 < m + 1 - 1
    · rw [if_pos hcond, if_pos (by omega), hsep]
    · rw [if_neg hcond, if_neg (by omega), hsep]

theorem byte128p : ∀ s, s < 128 → (128 + s) &&& 0x7f = s ∧ (128 + s) &&& 0x80 = 0x80 := by
  decide

theorem base128Size_pos (n : Nat) : 1 ≤ base128Size n := by
  unfold base128Size
  split <;> omega

theorem shiftRight7_eq (n : Nat) : n >>> 7 = n / 128 := by
  have h := shiftRight7k n 1
  norm_num at h
  exact h

theorem lt_pow_base128Size (n : Nat) : n < 128 ^ base128Size n := by
  induction n using Nat.strong_induction_on with
  | _ n ih =>
    unfold base128Size
    split
    · next h => simpa using h
    · next h =>
      push_neg at h
      have hlt : n >>> 7 < n := by rw [shiftRight7_eq]; omega
      have hih := ih (n >>> 7) hlt
      have h1 : n / 128 + 1 ≤ 128 ^ base128Size (n >>> 7) := by
        have h2 : n >>> 7 = n / 128 := shiftRight7_eq n
        omega
      calc n < 128 * (n / 128 + 1) := by omega
        _ ≤ 128 * 128 ^ base128Size (n >>> 7) := Nat.mul_le_mul_left _ h1
        _ = 128 ^ (1 + base128Size (n >>> 7)) := by rw [pow_add, pow_one]

theorem pow_le_of_base128Size (n : Nat) (h : 128 ≤ n) :
    128 ^ (base128Size n - 1) ≤ n := by
  induction n using Nat.strong_induction_on with
  | _ n ih =>
    unfold base128Size
    rw [if_neg (by omega)]
    have hpos := base128Size_pos (n >>> 7)
    rw [Nat.add_sub_cancel_left]
    by_cases h2 : n >>> 7 < 128
    · have hs : base128Size (n >>> 7) = 1 := by
        unfold base128Size
        rw [if_pos h2]
      rw [hs, pow_one]
      exact h
    · push_neg at h2
      have hlt : n >>> 7 < n := by rw [shiftRight7_eq]; omega
      have hih := ih (n >>> 7) hlt h2
      calc 128 ^ base128Size (n >>> 7)
          = 128 * 128 ^ (base128Size (n >>> 7) - 1) := by
            rw [← pow_succ']
            congr 1
            omega
        _ ≤ 128 * (n >>> 7) := Nat.mul_le_mul_left _ hih
        _ = 128 * (n / 128) := by rw [shiftRight7_eq]
        _ ≤ n := Nat.mul_div_le n 128

theorem base128Size_le_five (n : Nat) (hn : n < 2 ^ 32) : base128Size n ≤ 5 := by
  by_contra h
  push_neg at h
  have h128 : 128 ≤ n := by
    by_contra h2
    push_neg at h2
    have hs : base128Size n = 1 := by
      unfold base128Size
      rw [if_pos h2]
    omega
  have hle := pow_le_of_base128Size n h128
  have h5 : (128 : Nat) ^ 5 ≤ 128 ^ (base128Size n - 1) :=
    Nat.pow_le_pow_right (by omega) (by omega)
  norm_num at h5
  omega

theorem and_hi_eq_zero (x : Nat) (h : x < 2 ^ 25) : x &&& 0xFE000000 = 0 := by
  apply Nat.eq_of_testBit_eq
  intro j
  rw [Nat.testBit_and, Nat.zero_testBit]
  by_cases hj : j < 25
  · have hm : Nat.testBit 0xFE000000 j = false := by
      have he : (0xFE000000 : Nat) = 2 ^ 25 * 127 := by norm_num
      rw [he, Nat.testBit_mul_pow_two]
      simp only [Bool.and_eq_false_imp, decide_eq_true_eq]
      omega
    simp [hm]
  · have hx : Nat.testBit x j = false :=
      Nat.testBit_lt_two_pow (lt_of_lt_of_le h (Nat.pow_le_pow_right (by omega) (by omega)))
    simp [hx]

theorem unpackGo_bytes : ∀ k, 1 ≤ k → ∀ n, n < 128 ^ k → ∀ fuel, k ≤ fuel → ∀ acc rest,
    (∀ i, i < k → (acc * 128 ^ i + n >>> (7 * (k - i))) &&& 0xFE000000 = 0) →
    unpackBase128Go acc (base128Bytes n k ++ rest) fuel = .ok (acc * 128 ^ k + n, rest) := by
  intro k
  induction k with
  | zero => omega
  | succ m ih =>
    intro hk n hn fuel hfuel acc rest hchk
    match fuel, hfuel with
    | f + 1, hfuel =>
    have hacc : acc &&& 0xFE000000 = 0 := by
      have h := hchk 0 (by omega)
      have hz : n >>> (7 * (m + 1 - 0)) = 0 := by
        rw [shiftRight7k]
        exact Nat.div_eq_of_lt hn
      rw [hz, pow_zero, Nat.mul_one, Nat.add_zero] at h
      exact h
    by_cases hm : m = 0
    · subst hm
      rw [base128Bytes_one n (by simpa using hn)]
      simp only [List.cons_append, unpackBase128Go]
      rw [if_neg (by simp [hacc]), if_pos (byte_lt128 n (by simpa using hn)).2]
      rw [(byte_lt128 n (by simpa using hn)).1,
        shiftLeft7_or acc n (by simpa using hn)]
      norm_num
    · have hm1 : 1 ≤ m := by omega
      set t := n >>> (7 * m) with ht
      have htop : t < 128 := by
        rw [ht, shiftRight7k]
        apply Nat.div_lt_of_lt_mul
        calc n < 128 ^ (m + 1) := hn
          _ = 128 ^ m * 128 := by rw [pow_succ]
      rw [base128Bytes_cons n m hm1 hn, ← ht]
      simp only [List.cons_append, unpackBase128Go]
      rw [if_neg (by simp [hacc]), if_neg (by simp [(byte128p t htop).2]),
        (byte128p t htop).1, shiftLeft7_or acc t htop]
      have hrec := ih hm1 (n % 128 ^ m)
        (Nat.mod_lt _ (pow_pos (by omega) m)) f (by omega) (acc * 128 + t) rest ?_
      · rw [hrec]
        congr 2
        have hdm : t * 128 ^ m + n % 128 ^ m = n := by
          rw [ht, shiftRight7k, Nat.mul_comm]
          exact Nat.div_add_mod n (128 ^ m)
        calc (acc * 128 + t) * 128 ^ m + n % 128 ^ m
            = acc * (128 * 128 ^ m) + (t * 128 ^ m + n % 128 ^ m) := by ring
          _ = acc * 128 ^ (m + 1) + n := by rw [hdm, ← pow_succ']
      · intro i hi
        have h := hchk (i + 1) (by omega)
        have hsplit : n >>> (7 * (m + 1 - (i + 1)))
            = t * 128 ^ i + (n % 128 ^ m) >>> (7 * (m - i)) := by
          have harg : m + 1 - (i + 1) = m - i := by omega
          rw [harg, shiftRight7k, shiftRight7k, div_pow_split n m (m - i) (by omega), ht,
            shiftRight7k, show m - (m - i) = i from by omega]
        rw [hsplit] at h
        have heq : (acc * 128 + t) * 128 ^ i + (n % 128 ^ m) >>> (7 * (m - i))
            = acc * 128 ^ (i + 1) + (t * 128 ^ i + (n % 128 ^ m) >>> (7 * (m - i))) := by
          rw [pow_succ']
          ring
        rw [heq]
        rw [← Nat.add_assoc] at h
        rw [← Nat.add_assoc]
        exact h

theorem base128Bytes_head_ne (n : Nat) :
    ∃ b bs, base128Bytes n (base128Size n) = b :: bs ∧ b ≠ 0x80 := by
  rcases Nat.lt_or_ge n 128 with hlt | hge
  · have hs : base128Size n = 1 := by
      unfold base128Size
      rw [if_pos hlt]
    rw [hs, base128Bytes_one n hlt]
    exact ⟨n, [], rfl, by omega⟩
  · have hs2 : 2 ≤ base128Size n := by
      have h1 := base128Size_pos (n >>> 7)
      unfold base128Size
      rw [if_neg (by omega)]
      omega
    have hk := lt_pow_base128Size n
    have hpow := pow_le_of_base128Size n hge
    obtain ⟨m, hm⟩ : ∃ m, base128Size n = m + 1 := ⟨base128Size n - 1, by omega⟩
    rw [hm] at hk ⊢
    rw [base128Bytes_cons n m (by omega) hk]
    refine ⟨_, _, rfl, ?_⟩
    have ht1 : 1 ≤ n >>> (7 * m) := by
      rw [shiftRight7k]
      rw [hm] at hpow
      simp only [Nat.add_sub_cancel] at hpow
      exact Nat.one_le_div_iff (pow_pos (by omega) m) |>.mpr hpow
    omega

theorem unpackBase128_append_pack (n : Nat) (hn : n < 2 ^ 32) (rest : List Nat) :
    unpackBase128 (base128Bytes n (base128Size n) ++ rest) = .ok (n, rest) := by
  have hk1 := base128Size_pos n
  have hkn := lt_pow_base128Size n
  have hk5 := base128Size_le_five n hn
  have hconds : ∀ i, i < base128Size n →
      (0 * 128 ^ i + n >>> (7 * (base128Size n - i))) &&& 0xFE000000 = 0 := by
    intro i hi
    rw [Nat.zero_mul, Nat.zero_add]
    apply and_hi_eq_zero
    have hle : n >>> (7 * (base128Size n - i)) ≤ n >>> (7 * 1) := by
      rw [shiftRight7k, shiftRight7k]
      apply Nat.div_le_div_left
      · exact Nat.pow_le_pow_right (by omega) (by omega)
      · omega
    have h7 : n >>> (7 * 1) < 2 ^ 25 := by
      rw [shiftRight7k, pow_one]
      omega
    omega
  have hgo := unpackGo_bytes (base128Size n) hk1 n hkn 5 hk5 0 rest hconds
  rw [Nat.zero_mul, Nat.zero_add] at hgo
  obtain ⟨b, bs, hbytes, hb80⟩ := base128Bytes_head_ne n
  rw [hbytes] at hgo ⊢
  simp only [List.cons_append, unpackBase128]
  rw [if_neg hb80]
  exact hgo

/-- C3: for every `n < 2^32`, `packBase128` succeeds, `unpackBase128`
inverts it with empty leftover, the encoding has exactly `base128Size n`
bytes (between 1 and 5), and the bytes are the high-to-low 7-bit groups with
the continuation bit set on every byte but the last. -/
theorem c3_base128_roundtrip (n : Nat) (h : n < 2 ^ 32) :
    packBase128 n = .ok (base128Bytes n (base128Size n)) ∧
    unpackBase128 (base128Bytes n (base128Size n)) = .ok (n, []) ∧
    (base128Bytes n (base128Size n)).length = base128Size n ∧
    1 ≤ base128Size n ∧ base128Size n ≤ 5 ∧
    (∀ i, i < base128Size n →
      (base128Bytes n (base128Size n)).getD i 0 =
        (let b := (n >>> (7 * (base128Size n - i - 1))) &&& 0x7f
         if i < base128Size n - 1 then b ||| 0x80 else b)) := by
  refine ⟨?_, ?_, ?_, base128Size_pos n, base128Size_le_five n h, ?_⟩
  · unfold packBase128
    rw [if_neg (by omega)]
  · have hu := unpackBase128_append_pack n h []
    simpa using hu
  · simp [base128Bytes]
  · intro i hi
    unfold base128Bytes
    rw [List.getD_eq_getElem?_getD, List.getElem?_map, List.getElem?_range hi]
    rfl

/-- C3 witness at `n = 2^32 - 1` (five bytes `8F FF FF FF 7F`). -/
theorem c3_base128_roundtrip_witness :
    packBase128 4294967295 = .ok (base128Bytes 4294967295 (base128Size 4294967295)) ∧
    unpackBase128 (base128Bytes 4294967295 (base128Size 4294967295)) = .ok (4294967295, []) :=
  ⟨(c3_base128_roundtrip 4294967295 (by norm_num)).1,
    (c3_base128_roundtrip 4294967295 (by norm_num)).2.1⟩

theorem base128AccFrom_cons (acc b : Nat) (d : List Nat) :
    ∀ i, base128AccFrom acc (b :: d) (i + 1)
      = base128AccFrom ((acc <<< 7) ||| (b &&& 0x7f)) d i := by
  intro i
  induction i with
  | zero => rfl
  | succ k ihk =>
    show (base128AccFrom acc (b :: d) (k + 1) <<< 7) ||| ((b :: d).getD (k + 1) 0 &&& 0x7f)
      = (base128AccFrom ((acc <<< 7) ||| (b &&& 0x7f)) d k <<< 7) ||| (d.getD k 0 &&& 0x7f)
    rw [ihk]
    rfl

theorem unpackGo_ok_iff : ∀ (fuel : Nat) (data : List Nat) (acc : Nat),
    (∃ v r, unpackBase128Go acc data fuel = .ok (v, r)) ↔
    (∃ t, t < fuel ∧ t < data.length ∧
      (∀ j, j < t → data.getD j 0 &&& 0x80 ≠ 0) ∧
      data.getD t 0 &&& 0x80 = 0 ∧
      (∀ i, i ≤ t → base128AccFrom acc data i &&& 0xFE000000 = 0)) := by
  intro fuel
  induction fuel with
  | zero =>
    intro data acc
    simp [unpackBase128Go]
  | succ f ih =>
    intro data acc
    cases data with
    | nil => simp [unpackBase128Go]
    | cons b d =>
      by_cases hacc : acc &&& 0xFE000000 = 0
      · simp only [unpackBase128Go, ne_eq, hacc, not_true_eq_false, if_neg, ite_false,
          not_false_eq_true, if_false]
        by_cases hb : b &&& 0x80 = 0
        · simp only [if_pos hb]
          constructor
          · intro _
            refine ⟨0, by omega, by simp, by omega, hb, ?_⟩
            intro i hi
            have hi0 : i = 0 := by omega
            subst hi0
            exact hacc
          · intro _
            exact ⟨_, _, rfl⟩
        · simp only [if_neg hb]
          rw [ih d ((acc <<< 7) ||| (b &&& 0x7f))]
          constructor
          · rintro ⟨t, htf, htl, hcont, hterm, hclean⟩
            refine ⟨t + 1, by omega, by simpa using htl, ?_, hterm, ?_⟩
            · intro j hj
              cases j with
              | zero => exact hb
              | succ k => exact hcont k (by omega)
            · intro i hi
              cases i with
              | zero => exact hacc
              | succ k =>
                rw [base128AccFrom_cons]
                exact hclean k (by omega)
          · rintro ⟨t, htf, htl, hcont, hterm, hclean⟩
            cases t with
            | zero => exact absurd hterm hb
            | succ k =>
              refine ⟨k, by omega, by simpa using htl, ?_, hterm, ?_⟩
              · intro j hj
                exact hcont (j + 1) (by omega)
              · intro i hi
                rw [← base128AccFrom_cons]
                exact hclean (i + 1) (by omega)
      · simp only [unpackBase128Go, ne_eq, hacc, not_false_eq_true, if_true, ite_true]
        constructor
        · rintro ⟨v, r, h⟩
          exact absurd h (by simp)
        · rintro ⟨t, _, _, _, _, hclean⟩
          exact absurd (hclean 0 (by omega)) hacc

theorem unpackBase128_ok_iff (data : List Nat) :
    (∃ v r, unpackBase128 data = .ok (v, r)) ↔
    (data ≠ [] ∧ data.getD 0 0 ≠ 0x80 ∧
     ∃ t, t < 5 ∧ t < data.length ∧ (∀ j, j < t → data.getD j 0 &&& 0x80 ≠ 0) ∧
       data.getD t 0 &&& 0x80 = 0 ∧
       (∀ i, i ≤ t → base128AccFrom 0 data i &&& 0xFE000000 = 0)) := by
  cases data with
  | nil => simp [unpackBase128]
  | cons b d =>
    by_cases hb : b = 0x80
    · subst hb
      simp [unpackBase128]
    · simp only [unpackBase128, if_neg hb]
      rw [unpackGo_ok_iff 5 (b :: d) 0]
      simp only [ne_eq, List.cons_ne_nil, not_false_eq_true, true_and, List.getD_cons_zero]
      constructor
      · intro h
        exact ⟨hb, h⟩
      · intro h
        exact h.2

theorem not_base128Ok_iff_rejects (data : List Nat) :
    (¬ (data ≠ [] ∧ data.getD 0 0 ≠ 0x80 ∧
       ∃ t, t < 5 ∧ t < data.length ∧ (∀ j, j < t → data.getD j 0 &&& 0x80 ≠ 0) ∧
         data.getD t 0 &&& 0x80 = 0 ∧
         (∀ i, i ≤ t → base128AccFrom 0 data i &&& 0xFE000000 = 0)))
    ↔ base128Rejects data := by
  constructor
  · intro hnok
    by_cases hne : data = []
    · exact Or.inl hne
    by_cases h80 : data.getD 0 0 = 0x80
    · exact Or.inr (Or.inl ⟨hne, h80⟩)
    -- neither empty nor leading 0x80: the ∃ t clause must fail
    have hnot : ¬ ∃ t, t < 5 ∧ t < data.length ∧
        (∀ j, j < t → data.getD j 0 &&& 0x80 ≠ 0) ∧
        data.getD t 0 &&& 0x80 = 0 ∧
        (∀ i, i ≤ t → base128AccFrom 0 data i &&& 0xFE000000 = 0) := by
      intro hex
      exact hnok ⟨hne, h80, hex⟩
    by_cases hclean : ∃ t, t < 5 ∧ t < data.length ∧ data.getD t 0 &&& 0x80 = 0
    · -- there is a clean byte in the window; take the first one
      have t0 := Nat.find hclean
      have ht0 := Nat.find_spec hclean
      have ht0min : ∀ m, m < Nat.find hclean →
          ¬(m < 5 ∧ m < data.length ∧ data.getD m 0 &&& 0x80 = 0) :=
        fun m hm => Nat.find_min hclean hm
      set t0 := Nat.find hclean with ht0def
      have hcont : ∀ j, j < t0 → data.getD j 0 &&& 0x80 ≠ 0 := by
        intro j hj
        have := ht0min j hj
        intro hz
        exact this ⟨by omega, by omega, hz⟩
      -- the overflow-free condition must fail at some reached iteration
      by_cases hovf : ∀ i, i ≤ t0 → base128AccFrom 0 data i &&& 0xFE000000 = 0
      · exact absurd ⟨t0, ht0.1, ht0.2.1, hcont, ht0.2.2, hovf⟩ hnot
      · push_neg at hovf
        obtain ⟨i, hile, hine⟩ := hovf
        have hi1 : 1 ≤ i := by
          rcases Nat.eq_zero_or_pos i with h0 | h1
          · subst h0
            exact absurd (by rfl : base128AccFrom 0 data 0 &&& 0xFE000000 = 0 &&& 0xFE000000)
              (by simpa using hine)
          · exact h1
        refine Or.inr (Or.inr (Or.inl ⟨i, hi1, by omega, by omega, ?_, hine⟩))
        intro j hj
        exact hcont j (by omega)
    · -- no clean byte in the window
      push_neg at hclean
      by_cases hlen : data.length ≤ 4
      · refine Or.inr (Or.inr (Or.inr (Or.inl ⟨hne, hlen, ?_⟩)))
        intro j hj
        exact hclean j (by omega) (by omega)
      · refine Or.inr (Or.inr (Or.inr (Or.inr ⟨by omega, ?_⟩)))
        intro j hj
        exact hclean j hj (by omega)
  · intro hrej hok
    obtain ⟨hne, hb80, t, ht5, htl, hcont, hterm, hclean⟩ := hok
    rcases hrej with h | ⟨_, h⟩ | ⟨i, hi1, hi4, hil, hicont, hiacc⟩ | ⟨_, hlen, hall⟩ |
      ⟨hlen5, hall⟩
    · exact hne h
    · exact hb80 h
    · have hit : i ≤ t := by
        by_contra hgt
        exact hicont t (by omega) hterm
      exact hiacc (hclean i hit)
    · exact hall t htl hterm
    · exact hall t (by omega) hterm

/-- C5: `unpackBase128` raises an error exactly when the input is empty, or
starts with `0x80`, or the accumulator has a top-seven bit set before a
further 7-bit shift at a reached iteration, or the input is exhausted before
a terminating byte, or five bytes are consumed without one; on every other
input it returns a decoded value with leftover data. -/
theorem c5_base128_reject_iff (data : List Nat) :
    ((∃ e, unpackBase128 data = .error e) ↔ base128Rejects data) ∧
    (¬ base128Rejects data → ∃ v rest, unpackBase128 data = .ok (v, rest)) := by
  have hok := unpackBase128_ok_iff data
  have hbr := not_base128Ok_iff_rejects data
  have hdi : (∃ e, unpackBase128 data = .error e) ↔
      ¬ ∃ v rest, unpackBase128 data = .ok (v, rest) := by
    cases h : unpackBase128 data with
    | error e => simp
    | ok v =>
      simp only [reduceCtorEq, exists_false, false_iff, not_not]
      exact ⟨v.1, v.2, rfl⟩
  constructor
  · rw [hdi, hok, hbr]
  · intro hnr
    by_contra hc
    exact hnr (hbr.mp (fun hcond => hc (hok.mpr hcond)))

/-- C5 witness: `80 80 3F` is rejected (leading zeros), and `3F` is not. -/
theorem c5_base128_reject_iff_witness :
    base128Rejects [0x80, 0x80, 0x3f] ∧
    ¬ base128Rejects [0x3f] ∧ (∃ v rest, unpackBase128 [0x3f] = .ok (v, rest)) := by
  refine ⟨(c5_base128_reject_iff [0x80, 0x80, 0x3f]).1.mp ⟨_, rfl⟩, ?_, ?_⟩
  · intro h
    have h2 := (c5_base128_reject_iff [0x3f]).1.mpr h
    obtain ⟨e, he⟩ := h2
    rw [show unpackBase128 [0x3f] = .ok (63, []) from rfl] at he
    exact absurd he (by simp)
  · exact ⟨63, [], rfl⟩

/-! ## Triplet sign rule (C2) -/

theorem withSign_nonneg (s m : Nat) (h : s &&& 1 = 1) : 0 ≤ withSign s m := by
  unfold withSign
  rw [if_pos (by omega)]
  exact Int.natCast_nonneg m

theorem withSign_nonpos (s m : Nat) (h : s &&& 1 = 0) : withSign s m ≤ 0 := by
  unfold withSign
  rw [if_neg (by omega)]
  exact Int.neg_nonpos_of_nonneg (Int.natCast_nonneg m)

/-- C2 counterexample: for the flag byte `1` (triplet class 1) with triplet
byte `7`, the decoded `dy` is `7 ≥ 0` although bit 1 of the flag
(`(1 >> 1) & 1`) is `0` — in classes 0–9 the code takes `dy`'s sign from
bit 0, so the claimed rule "`dy` non-negative exactly when `(flag >> 1) & 1`
is 1" fails. -/
theorem c2_triplet_sign_counterexample :
    (decodePoint 1 [7]).2.2.1 = 7 ∧
    ¬ (0 ≤ (decodePoint 1 [7]).2.2.1 ↔ (1 >>> 1) &&& 1 = 1) := by
  decide

/-- C2 amended: for every flag byte, with class `f = flag & 0x7f`: `dx = 0`
in classes 0–9 and otherwise has the sign of `flag & 1`; `dy = 0` in classes
10–19, has the sign of `flag & 1` in classes 0–9, and the sign of
`(flag >> 1) & 1` in classes 20–127; a delta is non-negative when its sign
bit is 1 and non-positive when it is 0 (a zero magnitude is non-negative
either way, so the claimed "exactly when" weakens to this sign pair). -/
theorem c2_triplet_sign_rule_amended (flagByte : Nat) (t : List Nat) :
    (flagByte &&& 0x7f < 10 → (decodePoint flagByte t).2.1 = 0) ∧
    (10 ≤ flagByte &&& 0x7f →
      ((flagByte &&& 0x7f) &&& 1 = 1 → 0 ≤ (decodePoint flagByte t).2.1) ∧
      ((flagByte &&& 0x7f) &&& 1 = 0 → (decodePoint flagByte t).2.1 ≤ 0)) ∧
    (10 ≤ flagByte &&& 0x7f → flagByte &&& 0x7f < 20 →
      (decodePoint flagByte t).2.2.1 = 0) ∧
    (flagByte &&& 0x7f < 10 →
      ((flagByte &&& 0x7f) &&& 1 = 1 → 0 ≤ (decodePoint flagByte t).2.2.1) ∧
      ((flagByte &&& 0x7f) &&& 1 = 0 → (decodePoint flagByte t).2.2.1 ≤ 0)) ∧
    (20 ≤ flagByte &&& 0x7f →
      (((flagByte &&& 0x7f) >>> 1) &&& 1 = 1 → 0 ≤ (decodePoint flagByte t).2.2.1) ∧
      (((flagByte &&& 0x7f) >>> 1) &&& 1 = 0 → (decodePoint flagByte t).2.2.1 ≤ 0)) := by
  have hsub : ∀ a b : Nat, (a - 10) &&& 14 ≤ 14 := fun a b => Nat.and_le_right
  by_cases h10 : flagByte &&& 0x7f < 10
  · simp only [decodePoint, if_pos h10]
    exact ⟨fun _ => trivial, fun h => absurd h10 (by omega), fun h _ => absurd h10 (by omega),
      fun _ => ⟨fun h1 => withSign_nonneg _ _ h1, fun h0 => withSign_nonpos _ _ h0⟩,
      fun h => absurd h10 (by omega)⟩
  · by_cases h20 : flagByte &&& 0x7f < 20
    · simp only [decodePoint, if_neg h10, if_pos h20]
      exact ⟨fun h => absurd h h10, fun _ =>
        ⟨fun h1 => withSign_nonneg _ _ h1, fun h0 => withSign_nonpos _ _ h0⟩,
        fun _ _ => trivial, fun h => absurd h h10, fun h => absurd h20 (by omega)⟩
    · by_cases h84 : flagByte &&& 0x7f < 84
      · simp only [decodePoint, if_neg h10, if_neg h20, if_pos h84]
        exact ⟨fun h => absurd h h10, fun _ =>
          ⟨fun h1 => withSign_nonneg _ _ h1, fun h0 => withSign_nonpos _ _ h0⟩,
          fun _ h => absurd h h20, fun h => absurd h h10, fun _ =>
          ⟨fun h1 => withSign_nonneg _ _ h1, fun h0 => withSign_nonpos _ _ h0⟩⟩
      · by_cases h120 : flagByte &&& 0x7f < 120
        · simp only [decodePoint, if_neg h10, if_neg h20, if_neg h84, if_pos h120]
          exact ⟨fun h => absurd h h10, fun _ =>
            ⟨fun h1 => withSign_nonneg _ _ h1, fun h0 => withSign_nonpos _ _ h0⟩,
            fun _ h => absurd h h20, fun h => absurd h h10, fun _ =>
            ⟨fun h1 => withSign_nonneg _ _ h1, fun h0 => withSign_nonpos _ _ h0⟩⟩
        · by_cases h124 : flagByte &&& 0x7f < 124
          · simp only [decodePoint, if_neg h10, if_neg h20, if_neg h84, if_neg h120,
              if_pos h124]
            exact ⟨fun h => absurd h h10, fun _ =>
              ⟨fun h1 => withSign_nonneg _ _ h1, fun h0 => withSign_nonpos _ _ h0⟩,
              fun _ h => absurd h h20, fun h => absurd h h10, fun _ =>
              ⟨fun h1 => withSign_nonneg _ _ h1, fun h0 => withSign_nonpos _ _ h0⟩⟩
          · simp only [decodePoint, if_neg h10, if_neg h20, if_neg h84, if_neg h120,
              if_neg h124]
            exact ⟨fun h => absurd h h10, fun _ =>
              ⟨fun h1 => withSign_nonneg _ _ h1, fun h0 => withSign_nonpos _ _ h0⟩,
              fun _ h => absurd h h20, fun h => absurd h h10, fun _ =>
              ⟨fun h1 => withSign_nonneg _ _ h1, fun h0 => withSign_nonpos _ _ h0⟩⟩

/-- C2 amended witness at flag byte 21 (class 21: `dx` sign bit 1, `dy` sign
bit 0). -/
theorem c2_triplet_sign_rule_amended_witness :
    (10 : Nat) ≤ 21 &&& 0x7f ∧ (21 &&& 0x7f) &&& 1 = 1 ∧
    0 ≤ (decodePoint 21 [0x37]).2.1 :=
  ⟨by decide, by decide,
    ((c2_triplet_sign_rule_amended 21 [0x37]).2.1 (by decide)).1 (by decide)⟩

/-! ## Loca compilation (C8) -/

theorem le_foldl_max_iff (l : List Nat) : ∀ (a c : Nat),
    c ≤ l.foldl Nat.max a ↔ c ≤ a ∨ ∃ x ∈ l, c ≤ x := by
  induction l with
  | nil => simp
  | cons x xs ih =>
    intro a c
    simp only [List.foldl_cons, ih, List.mem_cons]
    constructor
    · rintro (h | ⟨y, hy, hcy⟩)
      · rcases le_max_iff.mp h with hca | hcx
        · exact Or.inl hca
        · exact Or.inr ⟨x, Or.inl rfl, hcx⟩
      · exact Or.inr ⟨y, Or.inr hy, hcy⟩
    · rintro (h | ⟨y, rfl | hy, hcy⟩)
      · exact Or.inl (le_max_iff.mpr (Or.inl h))
      · exact Or.inl (le_max_iff.mpr (Or.inr hcy))
      · exact Or.inr ⟨y, hy, hcy⟩

/-- C8: with the glyf table's `indexFormat = 0`, `WOFF2LocaTable.compile`
errors exactly when some location is `≥ 0x20000` or odd, and otherwise
emits each `location / 2` as a big-endian `uint16`; with `indexFormat = 1`
it emits each location as a big-endian `uint32`. -/
theorem c8_loca_compile (locations : List Nat) (hne : locations ≠ []) :
    ((∃ e, locaCompile 0 locations = .error e) ↔
      ∃ l ∈ locations, 0x20000 ≤ l ∨ l % 2 = 1) ∧
    ((∀ l ∈ locations, l < 0x20000 ∧ l % 2 = 0) →
      locaCompile 0 locations =
        .ok (locations.flatMap (fun l => [l / 2 / 256, l / 2 % 256]))) ∧
    ((∀ l ∈ locations, l < 2 ^ 32) →
      locaCompile 1 locations = .ok (locations.flatMap (fun l =>
        [l / 0x1000000 % 256, l / 0x10000 % 256, l / 256 % 256, l % 256]))) := by
  cases locations with
  | nil => exact absurd rfl hne
  | cons a as =>
    have hred0 : locaCompile 0 (a :: as) =
        (if (a :: as).foldl Nat.max 0 ≥ 0x20000 then
          .error (.ttLibError "indexFormat is 0 but local offsets > 0x20000")
        else if ¬ (a :: as).all (fun l => l % 2 = 0) then
          .error (.ttLibError "indexFormat is 0 but local offsets not multiples of 2")
        else .ok ((a :: as).flatMap (fun l => [l / 2 / 256, l / 2 % 256]))) := rfl
    have hred1 : locaCompile 1 (a :: as) =
        (if (a :: as).all (fun l => l < 2 ^ 32) then
          .ok ((a :: as).flatMap (fun l => [l / 0x1000000 % 256, l / 0x10000 % 256,
            l / 256 % 256, l % 256]))
        else .error .overflowError) := rfl
    have hmax := le_foldl_max_iff (a :: as) 0 0x20000
    have hallpar : ∀ P : Nat → Prop, ∀ inst : DecidablePred P,
        ((a :: as).all (fun l => decide (P l)) = true) ↔ ∀ l ∈ a :: as, P l := by
      intro P inst
      simp [List.all_eq_true]
    refine ⟨?_, ?_, ?_⟩
    · rw [hred0]
      by_cases hbig : (a :: as).foldl Nat.max 0 ≥ 0x20000
      · rw [if_pos hbig]
        refine iff_of_true ⟨_, rfl⟩ ?_
        obtain ⟨x, hx, hcx⟩ := (hmax.mp hbig).resolve_left (by omega)
        exact ⟨x, hx, Or.inl hcx⟩
      · rw [if_neg hbig]
        by_cases hall : (a :: as).all (fun l => l % 2 = 0)
        · rw [if_neg (not_not_intro hall)]
          simp only [reduceCtorEq, exists_false, false_iff, not_exists]
          intro x
          rintro ⟨hx, hbx | hox⟩
          · exact hbig (hmax.mpr (Or.inr ⟨x, hx, hbx⟩))
          · rw [List.all_eq_true] at hall
            have h2 := hall x hx
            simp only [decide_eq_true_eq] at h2
            omega
        · rw [if_pos hall]
          refine iff_of_true ⟨_, rfl⟩ ?_
          rw [List.all_eq_true] at hall
          push_neg at hall
          obtain ⟨x, hx, hox⟩ := hall
          have hox2 : x % 2 ≠ 0 := by simpa using hox
          exact ⟨x, hx, Or.inr (by omega)⟩
    · intro hok
      rw [hred0, if_neg ?hb, if_neg ?ho]
      case hb =>
        intro hbig
        obtain ⟨x, hx, hcx⟩ := (hmax.mp hbig).resolve_left (by omega)
        have h2 := (hok x hx).1
        omega
      case ho =>
        simp only [not_not, List.all_eq_true, decide_eq_true_eq]
        intro x hx
        exact (hok x hx).2
    · intro hlt
      rw [hred1, if_pos ?hp]
      case hp =>
        simp only [List.all_eq_true, decide_eq_true_eq]
        exact hlt

/-- C8 witness: locations `[0, 2, 6]` compile in both formats; location
`[0x20000]` errors in the short format. -/
theorem c8_loca_compile_witness :
    locaCompile 0 [0, 2, 6] = .ok [0, 0, 0, 1, 0, 3] ∧
    locaCompile 1 [0, 2, 6] = .ok [0, 0, 0, 0, 0, 0, 0, 2, 0, 0, 0, 6] ∧
    (∃ e, locaCompile 0 [0x20000] = .error e) := by
  refine ⟨?_, ?_, ?_⟩
  · have h := (c8_loca_compile [0, 2, 6] (by simp)).2.1 (by decide)
    simpa using h
  · have h := (c8_loca_compile [0, 2, 6] (by simp)).2.2 (by decide)
    simpa using h
  · exact (c8_loca_compile [0x20000] (by simp)).1.mpr ⟨0x20000, by simp, Or.inl (by omega)⟩

/-! ## Master checksum (C7) -/

theorem and_ffffffff_eq_mod (x : Nat) : x &&& 0xFFFFFFFF = x % 2 ^ 32 := by
  have h := Nat.and_pow_two_sub_one_eq_mod x 32
  norm_num at h ⊢
  exact h

theorem calcMasterChecksum_lt (checksums : List Nat) (directory : List Nat) :
    calcMasterChecksum checksums directory < 2 ^ 32 := by
  unfold calcMasterChecksum
  have h1 := Int.emod_lt_of_pos (0xB1B0AFBA -
    ((checksums.sum + calcChecksum directory) &&& 0xFFFFFFFF : Nat))
    (show (0 : Int) < 2 ^ 32 by norm_num)
  omega

theorem u32Bytes_length (n : Nat) : (u32Bytes n).length = 4 := rfl

theorem spliceAt_read (buf bytes : List Nat) (off : Nat)
    (h : off + bytes.length ≤ buf.length) :
    ((spliceAt buf off bytes).drop off).take bytes.length = bytes := by
  unfold spliceAt
  rw [List.append_assoc,
    List.drop_left' (by rw [List.length_take]; omega : (buf.take off).length = off),
    List.take_left' rfl]

/-- C7: after `writeMasterChecksum`, the four bytes at the head table's
offset plus 8 are the big-endian `checkSumAdjustment`, and the sum of all
per-table checksums (the `head` table checksummed with bytes `[8..12]`
zeroed, per `tableCheckSum`), the checksum of the synthetic sfnt directory,
and the adjustment is `0xB1B0AFBA` modulo `2^32`. -/
theorem c7_master_checksum (tables : List (List Nat × List Nat))
    (directory buf : List Nat) (headOffset : Nat)
    (hlen : headOffset + 12 ≤ buf.length) :
    ((tables.map (fun td => tableCheckSum td.1 td.2)).sum + calcChecksum directory
        + calcMasterChecksum (tables.map (fun td => tableCheckSum td.1 td.2)) directory)
      % 2 ^ 32 = 0xB1B0AFBA ∧
    ((writeMasterChecksum buf headOffset
          (tables.map (fun td => tableCheckSum td.1 td.2)) directory).drop
        (headOffset + 8)).take 4
      = u32Bytes (calcMasterChecksum (tables.map (fun td => tableCheckSum td.1 td.2))
          directory) ∧
    (∀ n, n < 2 ^ 32 → readU32 ((u32Bytes n).getD 0 0) ((u32Bytes n).getD 1 0)
        ((u32Bytes n).getD 2 0) ((u32Bytes n).getD 3 0) = n) ∧
    (∀ data, tableCheckSum headTag data
      = calcChecksum (data.take 8 ++ [0, 0, 0, 0] ++ data.drop 12)) := by
  refine ⟨?_, ?_, ?_, ?_⟩
  · set S := (tables.map (fun td => tableCheckSum td.1 td.2)).sum + calcChecksum directory
      with hS
    show (S + calcMasterChecksum (tables.map (fun td => tableCheckSum td.1 td.2)) directory)
        % 2 ^ 32 = 0xB1B0AFBA
    unfold calcMasterChecksum
    rw [← hS, and_ffffffff_eq_mod]
    have h1 := Int.emod_lt_of_pos (0xB1B0AFBA - ((S % 2 ^ 32 : Nat) : Int))
      (show (0 : Int) < 2 ^ 32 by norm_num)
    have h2 := Int.emod_nonneg (0xB1B0AFBA - ((S % 2 ^ 32 : Nat) : Int))
      (show (2 ^ 32 : Int) ≠ 0 by norm_num)
    have h3 := Int.emod_emod_of_dvd (0xB1B0AFBA - ((S % 2 ^ 32 : Nat) : Int))
      (dvd_refl (2 ^ 32 : Int))
    omega
  · exact spliceAt_read buf
      (u32Bytes (calcMasterChecksum (tables.map (fun td => tableCheckSum td.1 td.2))
        directory))
      (headOffset + 8) (by rw [u32Bytes_length]; omega)
  · intro n hn
    simp only [u32Bytes, List.getD_cons_zero, List.getD_cons_succ, readU32]
    omega
  · intro data
    rw [tableCheckSum, if_pos rfl]

/-- C7 witness: one `head` table (12 zero bytes of data) with a 12-byte
synthetic directory, written into a 20-byte buffer at offset 0. -/
theorem c7_master_checksum_witness :
    (0 : Nat) + 12 ≤ (List.replicate 20 0).length ∧
    (([(headTag, List.replicate 12 0)].map
        (fun td => tableCheckSum td.1 td.2)).sum
      + calcChecksum (sfntDirectory [0, 1, 0, 0] 1 [(headTag, 0, 0, 12)])
      + calcMasterChecksum ([(headTag, List.replicate 12 0)].map
          (fun td => tableCheckSum td.1 td.2))
        (sfntDirectory [0, 1, 0, 0] 1 [(headTag, 0, 0, 12)])) % 2 ^ 32 = 0xB1B0AFBA :=
  ⟨by decide,
    (c7_master_checksum [(headTag, List.replicate 12 0)]
      (sfntDirectory [0, 1, 0, 0] 1 [(headTag, 0, 0, 12)])
      (List.replicate 20 0) 0 (by decide)).1⟩

/-! ## Directory entry round-trip (C6) -/

theorem woff2KnownTags_length : woff2KnownTags.length = 63 := rfl

theorem flags_lt64_facts : ∀ x, x < 64 → x &&& 0x3F = x ∧ x &&& 0xC0 = 0 := by decide

theorem getKnownTagIndex_of_mem (tag : List Nat) (h : tag ∈ woff2KnownTags) :
    getKnownTagIndex tag < 63 ∧
    woff2KnownTags.getD (getKnownTagIndex tag) [] = tag := by
  have hlt : getKnownTagIndex tag < woff2KnownTags.length :=
    List.findIdx_lt_length_of_exists ⟨tag, h, by simp⟩
  have hbeq := @List.findIdx_getElem _ (· == tag) woff2KnownTags hlt
  have hlt63 : getKnownTagIndex tag < 63 := by
    have h63 := woff2KnownTags_length
    have hlt2 : getKnownTagIndex tag < woff2KnownTags.length := hlt
    omega
  refine ⟨hlt63, ?_⟩
  rw [List.getD_eq_getElem?_getD, List.getElem?_eq_getElem hlt]
  simpa using eq_of_beq hbeq

theorem getKnownTagIndex_of_not_mem (tag : List Nat) (h : tag ∉ woff2KnownTags) :
    getKnownTagIndex tag = 63 := by
  unfold getKnownTagIndex
  rw [List.findIdx_eq_length_of_false, woff2KnownTags_length]
  intro x hx
  simp only [beq_eq_false_iff_ne, ne_eq]
  intro hxe
  exact h (hxe ▸ hx)

theorem transformed_mem_known (tag : List Nat) (h : tag ∈ woff2TransformedTableTags) :
    tag ∈ woff2KnownTags := by
  rw [woff2TransformedTableTags, List.mem_cons, List.mem_cons] at h
  rcases h with rfl | rfl | h
  · exact (by decide : glyfTag ∈ woff2KnownTags)
  · exact (by decide : locaTag ∈ woff2KnownTags)
  · exact absurd h (List.not_mem_nil _)

/-- Unfolding of `entryToString` for an entry with `origLength`,
`transformLength` in UIntBase128 range. -/
theorem entryToString_ok (e : WOFF2DirectoryEntry) (horig : e.origLength < 2 ^ 32)
    (htrans : e.tag ∈ woff2TransformedTableTags → e.length < 2 ^ 32) :
    entryToString e = .ok ([e.flags]
      ++ (if e.flags &&& 0x3F = 0x3F then e.tag else [])
      ++ base128Bytes e.origLength (base128Size e.origLength)
      ++ (if e.tag ∈ woff2TransformedTableTags then
            base128Bytes e.length (base128Size e.length)
          else [])) := by
  have hp1 : packBase128 e.origLength
      = .ok (base128Bytes e.origLength (base128Size e.origLength)) := by
    unfold packBase128
    rw [if_neg (by omega)]
  by_cases htr : e.tag ∈ woff2TransformedTableTags
  · have hp2 : packBase128 e.length
        = .ok (base128Bytes e.length (base128Size e.length)) := by
      unfold packBase128
      rw [if_neg (by have := htrans htr; omega)]
    simp only [entryToString, hp1, hp2, if_pos htr, bind, Except.bind, List.append_assoc]
  · simp only [entryToString, hp1, if_neg htr, bind, Except.bind, List.append_assoc]

/-- C6: a directory entry whose flags byte is `getKnownTagIndex(tag)` (bits
6–7 clear) round-trips through `toString`/`fromString`, recovering the tag,
`origLength` and (for `glyf`/`loca`) the transform length with no leftover;
the serialisation carries explicit tag bytes exactly when the tag is not one
of the 63 known tags, in which case `flags & 0x3F = 63`. -/
theorem c6_directory_entry_roundtrip (e : WOFF2DirectoryEntry)
    (hflags : e.flags = getKnownTagIndex e.tag) (htag4 : e.tag.length = 4)
    (horig : e.origLength < 2 ^ 32)
    (htrans : e.tag ∈ woff2TransformedTableTags → e.length < 2 ^ 32)
    (hloca : e.tag = locaTag → e.length = 0) :
    ∃ ser, entryToString e = .ok ser ∧
      (∃ e2, entryFromString ser = .ok (e2, []) ∧ e2.tag = e.tag ∧ e2.flags = e.flags ∧
        e2.origLength = e.origLength ∧
        (e.tag ∈ woff2TransformedTableTags → e2.length = e.length)) ∧
      (∃ lb, ser = [e.flags] ++ (if e.tag ∈ woff2KnownTags then [] else e.tag) ++ lb) ∧
      (e.tag ∉ woff2KnownTags → e.flags &&& 0x3F = 63) := by
  have hser := entryToString_ok e horig htrans
  refine ⟨_, hser, ?_, ?_, ?_⟩
  · -- parse back
    by_cases hmem : e.tag ∈ woff2KnownTags
    · obtain ⟨hidx, hget⟩ := getKnownTagIndex_of_mem e.tag hmem
      have hf64 := flags_lt64_facts e.flags (by omega)
      have hne3f : ¬ e.flags &&& 0x3F = 0x3F := by
        rw [hf64.1]
        omega
      rw [if_neg hne3f]
      refine ⟨⟨e.flags, e.tag, e.origLength,
        if e.tag ∈ woff2TransformedTableTags then e.length else e.origLength⟩, ?_, rfl, rfl,
        rfl, fun h => by rw [if_pos h]⟩
      simp only [List.cons_append, List.nil_append, List.append_nil, entryFromString]
      rw [if_neg hne3f]
      simp only [bind, Except.bind]
      rw [hf64.1, hflags, hget, if_neg (by rw [← hflags, hf64.2]; omega)]
      by_cases htr : e.tag ∈ woff2TransformedTableTags
      · simp only [if_pos htr]
        rw [unpackBase128_append_pack e.origLength horig
          (base128Bytes e.length (base128Size e.length))]
        have hu2 := unpackBase128_append_pack e.length (htrans htr) []
        rw [List.append_nil] at hu2
        simp only [hu2]
        rw [if_neg (by rintro ⟨hlt, hne⟩; exact hne (hloca hlt))]
      · simp only [if_neg htr, List.append_nil]
        have hu := unpackBase128_append_pack e.origLength horig []
        rw [List.append_nil] at hu
        rw [hu]
    · have hidx := getKnownTagIndex_of_not_mem e.tag hmem
      have hf : e.flags = 63 := by rw [hflags, hidx]
      have h3f : e.flags &&& 0x3F = 0x3F := by rw [hf]; decide
      have htr : e.tag ∉ woff2TransformedTableTags := fun h =>
        hmem (transformed_mem_known e.tag h)
      rw [if_pos h3f, if_neg htr, List.append_nil]
      refine ⟨⟨e.flags, e.tag, e.origLength, e.origLength⟩, ?_, rfl, rfl, rfl,
        fun h => absurd h htr⟩
      simp only [List.cons_append, List.nil_append, entryFromString]
      rw [if_pos h3f]
      rw [if_neg (by rw [List.length_append, htag4]; omega)]
      simp only [bind, Except.bind]
      rw [List.take_left' htag4, List.drop_left' htag4,
        if_neg (by rw [hf]; decide)]
      have hu := unpackBase128_append_pack e.origLength horig []
      rw [List.append_nil] at hu
      rw [hu]
      simp only [if_neg htr]
  · by_cases hmem : e.tag ∈ woff2KnownTags
    · obtain ⟨hidx, _⟩ := getKnownTagIndex_of_mem e.tag hmem
      have hf64 := flags_lt64_facts e.flags (by omega)
      rw [if_pos hmem, if_neg (by rw [hf64.1]; omega)]
      exact ⟨_, rfl⟩
    · have hidx := getKnownTagIndex_of_not_mem e.tag hmem
      have hf : e.flags = 63 := by rw [hflags, hidx]
      rw [if_neg hmem, if_pos (by rw [hf]; decide)]
      exact ⟨base128Bytes e.origLength (base128Size e.origLength)
        ++ (if e.tag ∈ woff2TransformedTableTags then
              base128Bytes e.length (base128Size e.length) else []),
        List.append_assoc ([e.flags] ++ e.tag) _ _⟩
  · intro hmem
    have hidx := getKnownTagIndex_of_not_mem e.tag hmem
    rw [hflags, hidx]
    decide

/-- C6 witness: the known tag `cmap` (index 0) and an unknown tag `ZZZZ`. -/
theorem c6_directory_entry_roundtrip_witness :
    (∃ ser, entryToString ⟨getKnownTagIndex (tagBytes "cmap"), tagBytes "cmap", 300, 0⟩
        = .ok ser ∧
      (∃ e2, entryFromString ser = .ok (e2, []) ∧ e2.tag = tagBytes "cmap" ∧
        e2.flags = getKnownTagIndex (tagBytes "cmap") ∧ e2.origLength = 300 ∧
        (tagBytes "cmap" ∈ woff2TransformedTableTags → e2.length = 0)) ∧
      (∃ lb, ser = [getKnownTagIndex (tagBytes "cmap")]
        ++ (if tagBytes "cmap" ∈ woff2KnownTags then [] else tagBytes "cmap") ++ lb) ∧
      (tagBytes "cmap" ∉ woff2KnownTags → getKnownTagIndex (tagBytes "cmap") &&& 0x3F = 63)) :=
  c6_directory_entry_roundtrip ⟨getKnownTagIndex (tagBytes "cmap"), tagBytes "cmap", 300, 0⟩
    rfl (by decide) (by norm_num) (fun h => by norm_num) (fun h => rfl)

/-! ## BBox decoding (C9) -/

/-- C9: when a glyph's bitmap bit (MSB-first within bytes) is set,
`_decodeBBox` consumes exactly eight bytes off the bbox stream as big-endian
`int16` `xMin, yMin, xMax, yMax`; a composite glyph with the bit clear is an
error; a simple glyph with the bit clear gets the bounds computed from its
coordinates. -/
theorem c9_decBBox_spec (bitmap : List Nat) (glyphID : Nat) (s : DecState)
    (coords : List (Int × Int)) :
    (bitmap.getD (glyphID >>> 3) 0 &&& (0x80 >>> (glyphID &&& 7)) ≠ 0 →
      ∀ a0 a1 b0 b1 c0 c1 d0 d1 rest,
        s.bboxStream = a0 :: a1 :: b0 :: b1 :: c0 :: c1 :: d0 :: d1 :: rest →
        ∀ isComposite, decBBox bitmap glyphID isComposite coords s =
          .ok (⟨readInt16 a0 a1, readInt16 b0 b1, readInt16 c0 c1, readInt16 d0 d1⟩,
            { s with bboxStream := rest })) ∧
    (bitmap.getD (glyphID >>> 3) 0 &&& (0x80 >>> (glyphID &&& 7)) = 0 →
      decBBox bitmap glyphID true coords s =
        .error (.ttLibError "no bbox values for composite glyph")) ∧
    (bitmap.getD (glyphID >>> 3) 0 &&& (0x80 >>> (glyphID &&& 7)) = 0 →
      decBBox bitmap glyphID false coords s = .ok (calcIntBounds coords, s)) := by
  refine ⟨?_, ?_, ?_⟩
  · intro hbit a0 a1 b0 b1 c0 c1 d0 d1 rest hstream isComposite
    unfold decBBox
    rw [if_neg (by rintro ⟨_, hn⟩; exact hn hbit), if_pos hbit, hstream]
  · intro hbit
    unfold decBBox
    rw [if_pos ⟨rfl, by omega⟩]
  · intro hbit
    unfold decBBox
    rw [if_neg (by rintro ⟨hc, _⟩; exact Bool.false_ne_true hc), if_neg (by omega)]

/-- C9 witness: bit set with an 8-byte stream, and both clear-bit cases. -/
theorem c9_decBBox_spec_witness :
    ((0x80 : Nat) &&& (0x80 >>> (0 &&& 7)) ≠ 0 ∧
      decBBox [0x80] 0 true [] ⟨[], [], [], [], [0, 5, 0, 6, 0, 7, 0, 8], []⟩ =
        .ok (⟨5, 6, 7, 8⟩, ⟨[], [], [], [], [], []⟩)) ∧
    decBBox [0] 0 true [] ⟨[], [], [], [], [], []⟩ =
      .error (.ttLibError "no bbox values for composite glyph") ∧
    decBBox [0] 0 false [(1, 2)] ⟨[], [], [], [], [], []⟩ =
      .ok (⟨1, 2, 1, 2⟩, ⟨[], [], [], [], [], []⟩) := by
  refine ⟨⟨by decide, ?_⟩, ?_, ?_⟩
  · have h := (c9_decBBox_spec [0x80] 0 ⟨[], [], [], [], [0, 5, 0, 6, 0, 7, 0, 8], []⟩ []).1
      (by decide) 0 5 0 6 0 7 0 8 [] rfl true
    rw [h]
    rfl
  · exact (c9_decBBox_spec [0] 0 ⟨[], [], [], [], [], []⟩ []).2.1 (by decide)
  · have h := (c9_decBBox_spec [0] 0 ⟨[], [], [], [], [], []⟩ [(1, 2)]).2.2 (by decide)
    rw [h]
    rfl

/-! ## Triplet per-point round-trip (towards C1)

Bounded bit-manipulation facts, each checked exhaustively. -/

theorem bits_byte : ∀ f, f < 128 → f >>> 7 = 0 ∧ f &&& 0x7f = f ∧ (128 + f) >>> 7 = 1 ∧
    (128 + f) &&& 0x7f = f := by decide

set_option maxRecDepth 2000 in
theorem bits_mask1280 : ∀ q, q < 5 → ∀ r, r < 256 →
    (256 * q + r) &&& 0xf00 = 256 * q ∧ (256 * q + r) &&& 0xff = r := by decide

set_option maxRecDepth 2000 in
theorem bits_mask1024 : ∀ q, q < 4 → ∀ r, r < 256 →
    (256 * q + r) &&& 0x300 = 256 * q ∧ (256 * q + r) &&& 0xff = r := by decide

theorem bits_mask64 : ∀ u, u < 64 → u &&& 0x30 = u / 16 * 16 ∧ u &&& 0xf = u % 16 := by decide

theorem bits_nib : ∀ a, a < 16 → ∀ b, b < 16 → (a <<< 4) ||| b = 16 * a + b ∧
    (16 * a + b) >>> 4 = a ∧ (16 * a + b) &&& 0xf = b := by decide

theorem bits_b0_small : ∀ p, p < 4 → ∀ q, q < 4 → ∀ r, r < 4 →
    (16 * p + 4 * q + r) &&& 0x30 = 16 * p ∧ (16 * p + 4 * q + r) &&& 0x0c = 4 * q := by decide

theorem bits_div12 : ∀ p, p < 3 → ∀ q, q < 3 → ∀ r, r < 4 →
    (12 * p + 4 * q + r) / 12 = p ∧ ((12 * p + 4 * q + r) % 12) >>> 2 = q := by decide

theorem bits_and14 : ∀ q, q ≤ 4 → ∀ s, s ≤ 1 → (2 * q + s) &&& 14 = 2 * q := by decide

theorem shift1_parity (n : Nat) : (n >>> 1) &&& 1 = n / 2 % 2 := by
  rw [Nat.shiftRight_eq_div_pow, pow_one, Nat.and_one_is_mod]

theorem shl2_eq (a : Nat) : a <<< 2 = a * 4 := by rw [Nat.shiftLeft_eq]

theorem shl4_eq (a : Nat) : a <<< 4 = a * 16 := by rw [Nat.shiftLeft_eq]

theorem shl7_eq (a : Nat) : a <<< 7 = a * 128 := by rw [Nat.shiftLeft_eq]

theorem shl8_eq (a : Nat) : a <<< 8 = a * 256 := by rw [Nat.shiftLeft_eq]

theorem shr4_eq (a : Nat) : a >>> 4 = a / 16 := by
  rw [Nat.shiftRight_eq_div_pow]

theorem shr6_eq (a : Nat) : a >>> 6 = a / 64 := by
  rw [Nat.shiftRight_eq_div_pow]

theorem shr7_eq (a : Nat) : a >>> 7 = a / 128 := by
  rw [Nat.shiftRight_eq_div_pow]

theorem shr8_eq (a : Nat) : a >>> 8 = a / 256 := by
  rw [Nat.shiftRight_eq_div_pow]

theorem shr2_eq (a : Nat) : a >>> 2 = a / 4 := by
  rw [Nat.shiftRight_eq_div_pow]

theorem and15_eq_mod (x : Nat) : x &&& 0xf = x % 16 := by
  have h := Nat.and_pow_two_sub_one_eq_mod x 4
  norm_num at h
  exact h

theorem and255_eq_mod (x : Nat) : x &&& 0xff = x % 256 := by
  have h := Nat.and_pow_two_sub_one_eq_mod x 8
  norm_num at h
  exact h

theorem withSign_pos (s m : Nat) (h : s &&& 1 = 1) : withSign s m = (m : Int) := by
  unfold withSign
  rw [if_pos (by omega)]

theorem withSign_neg (s m : Nat) (h : s &&& 1 = 0) : withSign s m = -(m : Int) := by
  unfold withSign
  rw [if_neg (by omega)]

theorem withSign_natAbs (x : Int) (cls m : Nat) (hm : m = x.natAbs)
    (hbit : cls &&& 1 = (if x < 0 then 0 else 1)) : withSign cls m = x := by
  by_cases hx : x < 0
  · rw [if_pos hx] at hbit
    rw [withSign_neg _ _ hbit]
    omega
  · rw [if_neg hx] at hbit
    rw [withSign_pos _ _ hbit]
    omega

theorem pointRoundTrip_y (x y : Int) (onCurve : Bool) (hx0 : x = 0)
    (hy : y.natAbs < 1280) : PointRoundTrip x y onCurve := by
  obtain ⟨q, r, hq5, hr256, hqr⟩ : ∃ q r, q < 5 ∧ r < 256 ∧ y.natAbs = 256 * q + r :=
    ⟨y.natAbs / 256, y.natAbs % 256, by omega, by omega, by omega⟩
  have hm := bits_mask1280 q hq5 r hr256
  have hm1 : y.natAbs &&& 0xf00 = 256 * q := by rw [hqr]; exact hm.1
  have hm2 : y.natAbs &&& 0xff = r := by rw [hqr]; exact hm.2
  have henc : encodePoint x y onCurve = .ok
      ((if onCurve then 0 else 128) + ((y.natAbs &&& 0xf00) >>> 7 + (if y < 0 then 0 else 1)),
        [y.natAbs &&& 0xff]) := by
    simp only [encodePoint]
    rw [if_pos ⟨hx0, hy⟩]
  set s := (if y < 0 then 0 else 1) with hs
  have hs1 : s ≤ 1 := by rw [hs]; split <;> omega
  have hcls : (y.natAbs &&& 0xf00) >>> 7 + s = 2 * q + s := by
    rw [hm1, shr7_eq]
    omega
  have hcls10 : 2 * q + s < 10 := by omega
  refine ⟨_, _, henc, ?_, by simp, by simp [hm2]; omega, ?_⟩
  · rw [hcls]
    split <;> omega
  · intro rest
    rw [hcls, hm2]
    have hb := bits_byte (2 * q + s) (by omega)
    have hflag : ((if onCurve then 0 else 128) + (2 * q + s)) &&& 0x7f = 2 * q + s := by
      cases onCurve
      · rw [if_neg (by simp)]
        exact hb.2.2.2
      · rw [if_pos rfl, Nat.zero_add]
        exact hb.2.1
    have hshift : ((if onCurve then 0 else 128) + (2 * q + s)) >>> 7
        = (if onCurve then 0 else 1) := by
      cases onCurve
      · rw [if_neg (by simp), if_neg (by simp)]
        exact hb.2.2.1
      · rw [if_pos rfl, if_pos rfl, Nat.zero_add]
        exact hb.1
    simp only [decodePoint, hflag, hshift, List.cons_append]
    rw [if_pos hcls10, if_pos (by omega : 2 * q + s < 84)]
    simp only [List.getD_cons_zero, Prod.mk.injEq]
    refine ⟨?_, by omega, ?_, rfl⟩
    · cases onCurve <;> simp
    · rw [bits_and14 q (by omega) s hs1, shl7_eq]
      refine withSign_natAbs y _ _ (by omega) ?_
      rw [Nat.and_one_is_mod, hs]
      split <;> omega

theorem pointRoundTrip_x (x y : Int) (onCurve : Bool) (hy0 : y = 0)
    (hn1 : ¬(x = 0 ∧ y.natAbs < 1280)) (hx : x.natAbs < 1280) : PointRoundTrip x y onCurve := by
  obtain ⟨q, r, hq5, hr256, hqr⟩ : ∃ q r, q < 5 ∧ r < 256 ∧ x.natAbs = 256 * q + r :=
    ⟨x.natAbs / 256, x.natAbs % 256, by omega, by omega, by omega⟩
  have hm := bits_mask1280 q hq5 r hr256
  have hm1 : x.natAbs &&& 0xf00 = 256 * q := by rw [hqr]; exact hm.1
  have hm2 : x.natAbs &&& 0xff = r := by rw [hqr]; exact hm.2
  have henc : encodePoint x y onCurve = .ok
      ((if onCurve then 0 else 128) + 10 +
          ((x.natAbs &&& 0xf00) >>> 7 + (if x < 0 then 0 else 1)),
        [x.natAbs &&& 0xff]) := by
    simp only [encodePoint]
    rw [if_neg hn1, if_pos ⟨hy0, hx⟩]
  set s := (if x < 0 then 0 else 1) with hs
  have hs1 : s ≤ 1 := by rw [hs]; split <;> omega
  have hcls : (x.natAbs &&& 0xf00) >>> 7 + s = 2 * q + s := by
    rw [hm1, shr7_eq]
    omega
  refine ⟨_, _, henc, ?_, by simp, by simp [hm2]; omega, ?_⟩
  · rw [hcls]
    split <;> omega
  · intro rest
    rw [hcls, hm2]
    have hb := bits_byte (10 + (2 * q + s)) (by omega)
    have hflag : ((if onCurve then 0 else 128) + 10 + (2 * q + s)) &&& 0x7f
        = 10 + (2 * q + s) := by
      cases onCurve
      · rw [if_neg (by simp),
          show (128 : Nat) + 10 + (2 * q + s) = 128 + (10 + (2 * q + s)) from by omega]
        exact hb.2.2.2
      · rw [if_pos rfl, Nat.zero_add]
        exact hb.2.1
    have hshift : ((if onCurve then 0 else 128) + 10 + (2 * q + s)) >>> 7
        = (if onCurve then 0 else 1) := by
      cases onCurve
      · rw [if_neg (by simp), if_neg (by simp),
          show (128 : Nat) + 10 + (2 * q + s) = 128 + (10 + (2 * q + s)) from by omega]
        exact hb.2.2.1
      · rw [if_pos rfl, if_pos rfl, Nat.zero_add]
        exact hb.1
    simp only [decodePoint, hflag, hshift, List.cons_append]
    rw [if_neg (by omega : ¬(10 + (2 * q + s) < 10)),
      if_pos (by omega : 10 + (2 * q + s) < 20), if_pos (by omega : 10 + (2 * q + s) < 84)]
    simp only [List.getD_cons_zero, Prod.mk.injEq]
    refine ⟨by cases onCurve <;> simp, ?_, by omega, rfl⟩
    rw [show 10 + (2 * q + s) - 10 = 2 * q + s from by omega,
      bits_and14 q (by omega) s hs1, shl7_eq]
    refine withSign_natAbs x _ _ (by omega) ?_
    rw [Nat.and_one_is_mod, hs]
    split <;> omega

theorem pointRoundTrip_xy64 (x y : Int) (onCurve : Bool)
    (hn1 : ¬(x = 0 ∧ y.natAbs < 1280)) (hn2 : ¬(y = 0 ∧ x.natAbs < 1280))
    (hx : x.natAbs < 65) (hy : y.natAbs < 65) : PointRoundTrip x y onCurve := by
  have hx1 : 1 ≤ x.natAbs := by
    rcases eq_or_ne x 0 with h | h
    · exact absurd ⟨h, by omega⟩ hn1
    · omega
  have hy1 : 1 ≤ y.natAbs := by
    rcases eq_or_ne y 0 with h | h
    · exact absurd ⟨h, by omega⟩ hn2
    · omega
  obtain ⟨p, m, hp, hm, hpm⟩ : ∃ p m, p < 4 ∧ m < 16 ∧ x.natAbs - 1 = 16 * p + m :=
    ⟨(x.natAbs - 1) / 16, (x.natAbs - 1) % 16, by omega, by omega, by omega⟩
  obtain ⟨p2, m2, hp2, hm2, hpm2⟩ : ∃ p m, p < 4 ∧ m < 16 ∧ y.natAbs - 1 = 16 * p + m :=
    ⟨(y.natAbs - 1) / 16, (y.natAbs - 1) % 16, by omega, by omega, by omega⟩
  have hA : (x.natAbs - 1) &&& 0x30 = 16 * p := by
    rw [(bits_mask64 _ (by omega)).1]; omega
  have hAy : (y.natAbs - 1) &&& 0x30 = 16 * p2 := by
    rw [(bits_mask64 _ (by omega)).1]; omega
  have hB : ((y.natAbs - 1) &&& 0x30) >>> 2 = 4 * p2 := by
    rw [hAy, shr2_eq]; omega
  have hbx : (x.natAbs - 1) &&& 0xf = m := by
    rw [(bits_mask64 _ (by omega)).2]; omega
  have hby : (y.natAbs - 1) &&& 0xf = m2 := by
    rw [(bits_mask64 _ (by omega)).2]; omega
  have hnib := bits_nib m hm m2 hm2
  have henc : encodePoint x y onCurve = .ok
      ((if onCurve then 0 else 128) + 20 + ((x.natAbs - 1) &&& 0x30)
          + (((y.natAbs - 1) &&& 0x30) >>> 2)
          + ((if x < 0 then 0 else 1) + 2 * (if y < 0 then 0 else 1)),
        [(((x.natAbs - 1) &&& 0xf) <<< 4) ||| ((y.natAbs - 1) &&& 0xf)]) := by
    simp only [encodePoint]
    rw [if_neg hn1, if_neg hn2, if_pos ⟨hx, hy⟩]
  set xs := (if x < 0 then 0 else 1) with hxs
  set ys := (if y < 0 then 0 else 1) with hys
  have hxs1 : xs ≤ 1 := by rw [hxs]; split <;> omega
  have hys1 : ys ≤ 1 := by rw [hys]; split <;> omega
  refine ⟨_, _, henc, ?_, by simp, by simp [hbx, hby, hnib.1]; omega, ?_⟩
  · rw [hA, hB]
    split <;> omega
  · intro rest
    rw [hA, hB, hbx, hby, hnib.1]
    have hb := bits_byte (20 + 16 * p + 4 * p2 + (xs + 2 * ys)) (by omega)
    have hflag : ((if onCurve then 0 else 128) + 20 + 16 * p + 4 * p2 + (xs + 2 * ys)) &&& 0x7f
        = 20 + 16 * p + 4 * p2 + (xs + 2 * ys) := by
      cases onCurve
      · rw [if_neg (by simp),
          show (128 : Nat) + 20 + 16 * p + 4 * p2 + (xs + 2 * ys)
            = 128 + (20 + 16 * p + 4 * p2 + (xs + 2 * ys)) from by omega]
        exact hb.2.2.2
      · rw [if_pos rfl, Nat.zero_add]
        exact hb.2.1
    have hshift : ((if onCurve then 0 else 128) + 20 + 16 * p + 4 * p2 + (xs + 2 * ys)) >>> 7
        = (if onCurve then 0 else 1) := by
      cases onCurve
      · rw [if_neg (by simp), if_neg (by simp),
          show (128 : Nat) + 20 + 16 * p + 4 * p2 + (xs + 2 * ys)
            = 128 + (20 + 16 * p + 4 * p2 + (xs + 2 * ys)) from by omega]
        exact hb.2.2.1
      · rw [if_pos rfl, if_pos rfl, Nat.zero_add]
        exact hb.1
    have h10 : ¬(20 + 16 * p + 4 * p2 + (xs + 2 * ys) < 10) := by omega
    have h20 : ¬(20 + 16 * p + 4 * p2 + (xs + 2 * ys) < 20) := by omega
    have h84 : 20 + 16 * p + 4 * p2 + (xs + 2 * ys) < 84 := by omega
    simp only [decodePoint, hflag, hshift, List.cons_append, if_neg h10, if_neg h20, if_pos h84]
    have hb0 := bits_b0_small p hp p2 hp2 (xs + 2 * ys) (by omega)
    simp only [List.getD_cons_zero, Prod.mk.injEq]
    refine ⟨by cases onCurve <;> simp, ?_, ?_, rfl⟩
    · rw [show 20 + 16 * p + 4 * p2 + (xs + 2 * ys) - 20 = 16 * p + 4 * p2 + (xs + 2 * ys)
        from by omega, hb0.1, hnib.2.1]
      refine withSign_natAbs x _ _ (by omega) ?_
      rw [Nat.and_one_is_mod, hxs]
      split <;> omega
    · rw [show 20 + 16 * p + 4 * p2 + (xs + 2 * ys) - 20 = 16 * p + 4 * p2 + (xs + 2 * ys)
        from by omega, hb0.2, shl2_eq, hnib.2.2]
      refine withSign_natAbs y _ _ (by omega) ?_
      rw [shift1_parity, hys]
      split <;> omega

theorem pointRoundTrip_xy768 (x y : Int) (onCurve : Bool)
    (hn1 : ¬(x = 0 ∧ y.natAbs < 1280)) (hn2 : ¬(y = 0 ∧ x.natAbs < 1280))
    (hn3 : ¬(x.natAbs < 65 ∧ y.natAbs < 65))
    (hx : x.natAbs < 769) (hy : y.natAbs < 769) : PointRoundTrip x y onCurve := by
  have hx1 : 1 ≤ x.natAbs := by
    rcases eq_or_ne x 0 with h | h
    · exact absurd ⟨h, by omega⟩ hn1
    · omega
  have hy1 : 1 ≤ y.natAbs := by
    rcases eq_or_ne y 0 with h | h
    · exact absurd ⟨h, by omega⟩ hn2
    · omega
  obtain ⟨p, m, hp, hm, hpm⟩ : ∃ p m, p < 3 ∧ m < 256 ∧ x.natAbs - 1 = 256 * p + m :=
    ⟨(x.natAbs - 1) / 256, (x.natAbs - 1) % 256, by omega, by omega, by omega⟩
  obtain ⟨p2, m2, hp2, hm2, hpm2⟩ : ∃ p m, p < 3 ∧ m < 256 ∧ y.natAbs - 1 = 256 * p + m :=
    ⟨(y.natAbs - 1) / 256, (y.natAbs - 1) % 256, by omega, by omega, by omega⟩
  have hmu := bits_mask1024 p (by omega) m hm
  have hmv := bits_mask1024 p2 (by omega) m2 hm2
  have hA : ((x.natAbs - 1) &&& 0x300) >>> 8 = p := by
    rw [hpm, hmu.1, shr8_eq]; omega
  have hB : ((y.natAbs - 1) &&& 0x300) >>> 6 = 4 * p2 := by
    rw [hpm2, hmv.1, shr6_eq]; omega
  have hbx : (x.natAbs - 1) &&& 0xff = m := by rw [hpm]; exact hmu.2
  have hby : (y.natAbs - 1) &&& 0xff = m2 := by rw [hpm2]; exact hmv.2
  have henc : encodePoint x y onCurve = .ok
      ((if onCurve then 0 else 128) + 84 + 12 * (((x.natAbs - 1) &&& 0x300) >>> 8)
          + (((y.natAbs - 1) &&& 0x300) >>> 6)
          + ((if x < 0 then 0 else 1) + 2 * (if y < 0 then 0 else 1)),
        [(x.natAbs - 1) &&& 0xff, (y.natAbs - 1) &&& 0xff]) := by
    simp only [encodePoint]
    rw [if_neg hn1, if_neg hn2, if_neg hn3, if_pos ⟨hx, hy⟩]
  set xs := (if x < 0 then 0 else 1) with hxs
  set ys := (if y < 0 then 0 else 1) with hys
  have hxs1 : xs ≤ 1 := by rw [hxs]; split <;> omega
  have hys1 : ys ≤ 1 := by rw [hys]; split <;> omega
  refine ⟨_, _, henc, ?_, by simp, by simp [hbx, hby]; omega, ?_⟩
  · rw [hA, hB]
    split <;> omega
  · intro rest
    rw [hA, hB, hbx, hby]
    have hb := bits_byte (84 + 12 * p + 4 * p2 + (xs + 2 * ys)) (by omega)
    have hflag : ((if onCurve then 0 else 128) + 84 + 12 * p + 4 * p2 + (xs + 2 * ys)) &&& 0x7f
        = 84 + 12 * p + 4 * p2 + (xs + 2 * ys) := by
      cases onCurve
      · rw [if_neg (by simp),
          show (128 : Nat) + 84 + 12 * p + 4 * p2 + (xs + 2 * ys)
            = 128 + (84 + 12 * p + 4 * p2 + (xs + 2 * ys)) from by omega]
        exact hb.2.2.2
      · rw [if_pos rfl, Nat.zero_add]
        exact hb.2.1
    have hshift : ((if onCurve then 0 else 128) + 84 + 12 * p + 4 * p2 + (xs + 2 * ys)) >>> 7
        = (if onCurve then 0 else 1) := by
      cases onCurve
      · rw [if_neg (by simp), if_neg (by simp),
          show (128 : Nat) + 84 + 12 * p + 4 * p2 + (xs + 2 * ys)
            = 128 + (84 + 12 * p + 4 * p2 + (xs + 2 * ys)) from by omega]
        exact hb.2.2.1
      · rw [if_pos rfl, if_pos rfl, Nat.zero_add]
        exact hb.1
    have h10 : ¬(84 + 12 * p + 4 * p2 + (xs + 2 * ys) < 10) := by omega
    have h20 : ¬(84 + 12 * p + 4 * p2 + (xs + 2 * ys) < 20) := by omega
    have h84 : ¬(84 + 12 * p + 4 * p2 + (xs + 2 * ys) < 84) := by omega
    have h120 : 84 + 12 * p + 4 * p2 + (xs + 2 * ys) < 120 := by omega
    simp only [decodePoint, hflag, hshift, List.cons_append, if_neg h10, if_neg h20,
      if_neg h84, if_pos h120]
    have hd := bits_div12 p hp p2 hp2 (xs + 2 * ys) (by omega)
    simp only [List.getD_cons_zero, List.getD_cons_succ, Prod.mk.injEq]
    refine ⟨by cases onCurve <;> simp, ?_, ?_, rfl⟩
    · rw [show 84 + 12 * p + 4 * p2 + (xs + 2 * ys) - 84 = 12 * p + 4 * p2 + (xs + 2 * ys)
        from by omega, hd.1, shl8_eq]
      refine withSign_natAbs x _ _ (by omega) ?_
      rw [Nat.and_one_is_mod, hxs]
      split <;> omega
    · rw [show 84 + 12 * p + 4 * p2 + (xs + 2 * ys) - 84 = 12 * p + 4 * p2 + (xs + 2 * ys)
        from by omega, hd.2, shl8_eq]
      refine withSign_natAbs y _ _ (by omega) ?_
      rw [shift1_parity, hys]
      split <;> omega

theorem pointRoundTrip_xy4096 (x y : Int) (onCurve : Bool)
    (hn1 : ¬(x = 0 ∧ y.natAbs < 1280)) (hn2 : ¬(y = 0 ∧ x.natAbs < 1280))
    (hn3 : ¬(x.natAbs < 65 ∧ y.natAbs < 65)) (hn4 : ¬(x.natAbs < 769 ∧ y.natAbs < 769))
    (hx : x.natAbs < 4096) (hy : y.natAbs < 4096) : PointRoundTrip x y onCurve := by
  have hnib := bits_nib (x.natAbs % 16) (by omega) (y.natAbs / 256) (by omega)
  have ht0 : x.natAbs >>> 4 = x.natAbs / 16 := shr4_eq _
  have ht1 : ((x.natAbs &&& 0xf) <<< 4) ||| (y.natAbs >>> 8)
      = 16 * (x.natAbs % 16) + y.natAbs / 256 := by
    rw [and15_eq_mod, shr8_eq]; exact hnib.1
  have ht2 : y.natAbs &&& 0xff = y.natAbs % 256 := and255_eq_mod _
  have henc : encodePoint x y onCurve = .ok
      ((if onCurve then 0 else 128) + 120
          + ((if x < 0 then 0 else 1) + 2 * (if y < 0 then 0 else 1)),
        [x.natAbs >>> 4, ((x.natAbs &&& 0xf) <<< 4) ||| (y.natAbs >>> 8), y.natAbs &&& 0xff]) := by
    simp only [encodePoint]
    rw [if_neg hn1, if_neg hn2, if_neg hn3, if_neg hn4, if_pos ⟨hx, hy⟩]
  set xs := (if x < 0 then 0 else 1) with hxs
  set ys := (if y < 0 then 0 else 1) with hys
  have hxs1 : xs ≤ 1 := by rw [hxs]; split <;> omega
  have hys1 : ys ≤ 1 := by rw [hys]; split <;> omega
  refine ⟨_, _, henc, ?_, by simp, by simp [ht0, ht1, ht2]; omega, ?_⟩
  · split <;> omega
  · intro rest
    rw [ht0, ht1, ht2]
    have hb := bits_byte (120 + (xs + 2 * ys)) (by omega)
    have hflag : ((if onCurve then 0 else 128) + 120 + (xs + 2 * ys)) &&& 0x7f
        = 120 + (xs + 2 * ys) := by
      cases onCurve
      · rw [if_neg (by simp),
          show (128 : Nat) + 120 + (xs + 2 * ys) = 128 + (120 + (xs + 2 * ys)) from by omega]
        exact hb.2.2.2
      · rw [if_pos rfl, Nat.zero_add]
        exact hb.2.1
    have hshift : ((if onCurve then 0 else 128) + 120 + (xs + 2 * ys)) >>> 7
        = (if onCurve then 0 else 1) := by
      cases onCurve
      · rw [if_neg (by simp), if_neg (by simp),
          show (128 : Nat) + 120 + (xs + 2 * ys) = 128 + (120 + (xs + 2 * ys)) from by omega]
        exact hb.2.2.1
      · rw [if_pos rfl, if_pos rfl, Nat.zero_add]
        exact hb.1
    have h10 : ¬(120 + (xs + 2 * ys) < 10) := by omega
    have h20 : ¬(120 + (xs + 2 * ys) < 20) := by omega
    have h84 : ¬(120 + (xs + 2 * ys) < 84) := by omega
    have h120 : ¬(120 + (xs + 2 * ys) < 120) := by omega
    have h124 : 120 + (xs + 2 * ys) < 124 := by omega
    simp only [decodePoint, hflag, hshift, List.cons_append, if_neg h10, if_neg h20,
      if_neg h84, if_neg h120, if_pos h124]
    simp only [List.getD_cons_zero, List.getD_cons_succ, Prod.mk.injEq]
    refine ⟨by cases onCurve <;> simp, ?_, ?_, rfl⟩
    · rw [shl4_eq, hnib.2.1]
      refine withSign_natAbs x _ _ (by omega) ?_
      rw [Nat.and_one_is_mod, hxs]
      split <;> omega
    · rw [hnib.2.2, shl8_eq]
      refine withSign_natAbs y _ _ (by omega) ?_
      rw [shift1_parity, hys]
      split <;> omega

theorem pointRoundTrip_xy65536 (x y : Int) (onCurve : Bool)
    (hn1 : ¬(x = 0 ∧ y.natAbs < 1280)) (hn2 : ¬(y = 0 ∧ x.natAbs < 1280))
    (hn3 : ¬(x.natAbs < 65 ∧ y.natAbs < 65)) (hn4 : ¬(x.natAbs < 769 ∧ y.natAbs < 769))
    (hn5 : ¬(x.natAbs < 4096 ∧ y.natAbs < 4096))
    (hx : x.natAbs < 65536) (hy : y.natAbs < 65536) : PointRoundTrip x y onCurve := by
  have ht0 : x.natAbs >>> 8 = x.natAbs / 256 := shr8_eq _
  have ht1 : x.natAbs &&& 0xff = x.natAbs % 256 := and255_eq_mod _
  have ht2 : y.natAbs >>> 8 = y.natAbs / 256 := shr8_eq _
  have ht3 : y.natAbs &&& 0xff = y.natAbs % 256 := and255_eq_mod _
  have henc : encodePoint x y onCurve = .ok
      ((if onCurve then 0 else 128) + 124
          + ((if x < 0 then 0 else 1) + 2 * (if y < 0 then 0 else 1)),
        [x.natAbs >>> 8, x.natAbs &&& 0xff, y.natAbs >>> 8, y.natAbs &&& 0xff]) := by
    simp only [encodePoint]
    rw [if_neg hn1, if_neg hn2, if_neg hn3, if_neg hn4, if_neg hn5, if_pos ⟨hx, hy⟩]
  set xs := (if x < 0 then 0 else 1) with hxs
  set ys := (if y < 0 then 0 else 1) with hys
  have hxs1 : xs ≤ 1 := by rw [hxs]; split <;> omega
  have hys1 : ys ≤ 1 := by rw [hys]; split <;> omega
  refine ⟨_, _, henc, ?_, by simp, by simp [ht0, ht1, ht2, ht3]; omega, ?_⟩
  · split <;> omega
  · intro rest
    rw [ht0, ht1, ht2, ht3]
    have hb := bits_byte (124 + (xs + 2 * ys)) (by omega)
    have hflag : ((if onCurve then 0 else 128) + 124 + (xs + 2 * ys)) &&& 0x7f
        = 124 + (xs + 2 * ys) := by
      cases onCurve
      · rw [if_neg (by simp),
          show (128 : Nat) + 124 + (xs + 2 * ys) = 128 + (124 + (xs + 2 * ys)) from by omega]
        exact hb.2.2.2
      · rw [if_pos rfl, Nat.zero_add]
        exact hb.2.1
    have hshift : ((if onCurve then 0 else 128) + 124 + (xs + 2 * ys)) >>> 7
        = (if onCurve then 0 else 1) := by
      cases onCurve
      · rw [if_neg (by simp), if_neg (by simp),
          show (128 : Nat) + 124 + (xs + 2 * ys) = 128 + (124 + (xs + 2 * ys)) from by omega]
        exact hb.2.2.1
      · rw [if_pos rfl, if_pos rfl, Nat.zero_add]
        exact hb.1
    have h10 : ¬(124 + (xs + 2 * ys) < 10) := by omega
    have h20 : ¬(124 + (xs + 2 * ys) < 20) := by omega
    have h84 : ¬(124 + (xs + 2 * ys) < 84) := by omega
    have h120 : ¬(124 + (xs + 2 * ys) < 120) := by omega
    have h124 : ¬(124 + (xs + 2 * ys) < 124) := by omega
    simp only [decodePoint, hflag, hshift, List.cons_append, if_neg h10, if_neg h20,
      if_neg h84, if_neg h120, if_neg h124]
    simp only [List.getD_cons_zero, List.getD_cons_succ, Prod.mk.injEq]
    refine ⟨by cases onCurve <;> simp, ?_, ?_, rfl⟩
    · rw [shl8_eq]
      refine withSign_natAbs x _ _ (by omega) ?_
      rw [Nat.and_one_is_mod, hxs]
      split <;> omega
    · rw [shl8_eq]
      refine withSign_natAbs y _ _ (by omega) ?_
      rw [shift1_parity, hys]
      split <;> omega

theorem decodePoint_encodePoint (x y : Int) (onCurve : Bool)
    (hx : x.natAbs < 65536) (hy : y.natAbs < 65536) : PointRoundTrip x y onCurve := by
  by_cases h1 : x = 0 ∧ y.natAbs < 1280
  · exact pointRoundTrip_y x y onCurve h1.1 h1.2
  by_cases h2 : y = 0 ∧ x.natAbs < 1280
  · exact pointRoundTrip_x x y onCurve h2.1 h1 h2.2
  by_cases h3 : x.natAbs < 65 ∧ y.natAbs < 65
  · exact pointRoundTrip_xy64 x y onCurve h1 h2 h3.1 h3.2
  by_cases h4 : x.natAbs < 769 ∧ y.natAbs < 769
  · exact pointRoundTrip_xy768 x y onCurve h1 h2 h3 h4.1 h4.2
  by_cases h5 : x.natAbs < 4096 ∧ y.natAbs < 4096
  · exact pointRoundTrip_xy4096 x y onCurve h1 h2 h3 h4 h5.1 h5.2
  · exact pointRoundTrip_xy65536 x y onCurve h1 h2 h3 h4 h5 hx hy

theorem shr3_eq (a : Nat) : a >>> 3 = a / 8 := by
  rw [Nat.shiftRight_eq_div_pow]

theorem and7_eq_mod (x : Nat) : x &&& 7 = x % 8 := by
  have h := Nat.and_pow_two_sub_one_eq_mod x 3
  norm_num at h
  exact h

set_option maxRecDepth 2000 in
theorem bits_bitmap : ∀ b, b < 256 → ∀ p, p < 8 →
    b ||| (0x80 >>> p) < 256 ∧ ((b ||| (0x80 >>> p)) &&& (0x80 >>> p) ≠ 0) ∧
    ∀ q, q < 8 → p ≠ q →
      (b ||| (0x80 >>> p)) &&& (0x80 >>> q) = b &&& (0x80 >>> q) := by decide

theorem setBBoxBit_length (bm : List Nat) (g : Nat) :
    (setBBoxBit bm g).length = bm.length := by
  simp [setBBoxBit]

theorem getD_lt_of_bytes (bm : List Nat) (k : Nat) (hb : ∀ b ∈ bm, b < 256) :
    bm.getD k 0 < 256 := by
  by_cases hk : k < bm.length
  · rw [List.getD_eq_getElem?_getD, List.getElem?_eq_getElem hk]
    exact hb _ (List.getElem_mem hk)
  · rw [List.getD_eq_getElem?_getD, List.getElem?_eq_none (by omega), Option.getD_none]
    omega

theorem setBBoxBit_bytes (bm : List Nat) (g : Nat) (hb : ∀ b ∈ bm, b < 256) :
    ∀ b ∈ setBBoxBit bm g, b < 256 := by
  intro b hbm
  rcases List.mem_or_eq_of_mem_set hbm with h | rfl
  · exact hb b h
  · have hp8 : g &&& 7 < 8 := by rw [and7_eq_mod]; omega
    exact (bits_bitmap _ (getD_lt_of_bytes bm _ hb) (g &&& 7) hp8).1

theorem setBBoxBit_preserve (bm : List Nat) (g j : Nat) (hb : ∀ b ∈ bm, b < 256)
    (hne : g ≠ j) :
    (setBBoxBit bm g).getD (j >>> 3) 0 &&& (0x80 >>> (j &&& 7))
      = bm.getD (j >>> 3) 0 &&& (0x80 >>> (j &&& 7)) := by
  by_cases hk : g >>> 3 = j >>> 3
  · by_cases hlt : j >>> 3 < bm.length
    · have hset : (setBBoxBit bm g).getD (j >>> 3) 0
          = bm.getD (g >>> 3) 0 ||| (0x80 >>> (g &&& 7)) := by
        rw [setBBoxBit, ← hk, List.getD_eq_getElem?_getD,
          List.getElem?_set_self (by rw [hk]; exact hlt), Option.getD_some]
      rw [hset]
      have hbyte : bm.getD (g >>> 3) 0 < 256 := by
        rw [List.getD_eq_getElem?_getD, List.getElem?_eq_getElem (hk ▸ hlt)]
        exact hb _ (List.getElem_mem (hk ▸ hlt))
      have hp8 : g &&& 7 < 8 := by rw [and7_eq_mod]; omega
      have hq8 : j &&& 7 < 8 := by rw [and7_eq_mod]; omega
      have hpq : g &&& 7 ≠ j &&& 7 := by
        rw [and7_eq_mod, and7_eq_mod]
        rw [shr3_eq, shr3_eq] at hk
        omega
      rw [← hk]
      exact (bits_bitmap _ hbyte (g &&& 7) hp8).2.2 (j &&& 7) hq8 hpq
    · have h1 : (setBBoxBit bm g).getD (j >>> 3) 0 = 0 := by
        rw [List.getD_eq_getElem?_getD,
          List.getElem?_eq_none (by rw [setBBoxBit_length]; omega), Option.getD_none]
      have h2 : bm.getD (j >>> 3) 0 = 0 := by
        rw [List.getD_eq_getElem?_getD, List.getElem?_eq_none (by omega), Option.getD_none]
      rw [h1, h2]
  · rw [setBBoxBit, List.getD_eq_getElem?_getD, List.getElem?_set_ne hk,
      ← List.getD_eq_getElem?_getD]

theorem setBBoxBit_hit (bm : List Nat) (g : Nat) (hb : ∀ b ∈ bm, b < 256)
    (hg : g >>> 3 < bm.length) :
    (setBBoxBit bm g).getD (g >>> 3) 0 &&& (0x80 >>> (g &&& 7)) ≠ 0 := by
  have hset : (setBBoxBit bm g).getD (g >>> 3) 0
      = bm.getD (g >>> 3) 0 ||| (0x80 >>> (g &&& 7)) := by
    rw [setBBoxBit, List.getD_eq_getElem?_getD, List.getElem?_set_self hg, Option.getD_some]
  rw [hset]
  have hp8 : g &&& 7 < 8 := by rw [and7_eq_mod]; omega
  exact (bits_bitmap _ (getD_lt_of_bytes bm _ hb) (g &&& 7) hp8).2.1

theorem buildBitmap_bytes : ∀ (ps : List EncParts) (bm : List Nat) (g0 : Nat),
    (∀ b ∈ bm, b < 256) → ∀ b ∈ buildBitmap bm g0 ps, b < 256
  | [], _, _, hb => hb
  | p :: ps, bm, g0, hb => by
    simp only [buildBitmap]
    refine buildBitmap_bytes ps _ (g0 + 1) ?_
    split
    · exact setBBoxBit_bytes bm g0 hb
    · exact hb

theorem buildBitmap_length : ∀ (ps : List EncParts) (bm : List Nat) (g0 : Nat),
    (buildBitmap bm g0 ps).length = bm.length
  | [], _, _ => rfl
  | p :: ps, bm, g0 => by
    simp only [buildBitmap]
    rw [buildBitmap_length ps _ (g0 + 1)]
    split
    · rw [setBBoxBit_length]
    · rfl

theorem buildBitmap_preserve : ∀ (ps : List EncParts) (bm : List Nat) (g0 j : Nat),
    (∀ b ∈ bm, b < 256) → j < g0 →
    (buildBitmap bm g0 ps).getD (j >>> 3) 0 &&& (0x80 >>> (j &&& 7))
      = bm.getD (j >>> 3) 0 &&& (0x80 >>> (j &&& 7))
  | [], _, _, _, _, _ => rfl
  | p :: ps, bm, g0, j, hb, hj => by
    simp only [buildBitmap]
    by_cases hB : p.hasBBox = true
    · rw [if_pos hB,
        buildBitmap_preserve ps _ (g0 + 1) j (setBBoxBit_bytes bm g0 hb) (by omega),
        setBBoxBit_preserve bm g0 j hb (by omega)]
    · rw [if_neg hB]
      exact buildBitmap_preserve ps bm (g0 + 1) j hb (by omega)

theorem buildBitmap_read : ∀ (ps : List EncParts) (bm : List Nat) (g0 : Nat),
    (∀ b ∈ bm, b < 256) →
    (∀ j, g0 ≤ j → bm.getD (j >>> 3) 0 &&& (0x80 >>> (j &&& 7)) = 0) →
    g0 + ps.length ≤ 8 * bm.length →
    ∀ i (hi : i < ps.length),
      ((buildBitmap bm g0 ps).getD ((g0 + i) >>> 3) 0 &&& (0x80 >>> ((g0 + i) &&& 7)) ≠ 0
        ↔ ps[i].hasBBox = true)
  | [], _, _, _, _, _, i, hi => absurd hi (by simp)
  | p :: ps, bm, g0, hb, hz, hcap, i, hi => by
    simp only [buildBitmap]
    cases i with
    | zero =>
      simp only [Nat.add_zero, List.getElem_cons_zero]
      by_cases hB : p.hasBBox = true
      · rw [if_pos hB,
          buildBitmap_preserve ps _ (g0 + 1) g0 (setBBoxBit_bytes bm g0 hb) (by omega)]
        have hhit := setBBoxBit_hit bm g0 hb
          (by rw [shr3_eq]; simp only [List.length_cons] at hcap; omega)
        exact iff_of_true hhit hB
      · rw [if_neg hB, buildBitmap_preserve ps bm (g0 + 1) g0 hb (by omega)]
        exact iff_of_false (by rw [hz g0 le_rfl]; simp) hB
    | succ i' =>
      have hi' : i' < ps.length := by simp only [List.length_cons] at hi; omega
      rw [show g0 + (i' + 1) = (g0 + 1) + i' from by omega]
      simp only [List.getElem_cons_succ]
      by_cases hB : p.hasBBox = true
      · rw [if_pos hB]
        exact buildBitmap_read ps (setBBoxBit bm g0) (g0 + 1)
          (setBBoxBit_bytes bm g0 hb)
          (fun j hj => by
            rw [setBBoxBit_preserve bm g0 j hb (by omega)]
            exact hz j (by omega))
          (by rw [setBBoxBit_length]; simp only [List.length_cons] at hcap; omega)
          i' hi'
      · rw [if_neg hB]
        exact buildBitmap_read ps bm (g0 + 1) hb (fun j hj => hz j (by omega))
          (by simp only [List.length_cons] at hcap; omega) i' hi'

theorem accumFrom_absoluteToRelativeGo : ∀ (coords : List (Int × Int)) (px py : Int),
    accumFrom px py (absoluteToRelativeGo px py coords) = coords
  | [], _, _ => rfl
  | (x, y) :: cs, px, py => by
    simp only [absoluteToRelativeGo, accumFrom]
    rw [show px + (x - px) = x from by ring, show py + (y - py) = y from by ring,
      accumFrom_absoluteToRelativeGo cs x y]

theorem absoluteToRelativeGo_length : ∀ (coords : List (Int × Int)) (px py : Int),
    (absoluteToRelativeGo px py coords).length = coords.length
  | [], _, _ => rfl
  | (x, y) :: cs, px, py => by
    simp only [absoluteToRelativeGo, List.length_cons, absoluteToRelativeGo_length cs x y]

theorem encodeTripletsGo_roundtrip : ∀ (ps : List ((Int × Int) × Bool)),
    (∀ p ∈ ps, p.1.1.natAbs < 65536 ∧ p.1.2.natAbs < 65536) →
    ∃ fs ts, encodeTripletsGo ps = .ok (fs, ts) ∧
      fs.length = ps.length ∧ ps.length ≤ ts.length ∧ ts.length ≤ 4 * ps.length ∧
      (∀ b ∈ fs, b < 256) ∧ (∀ b ∈ ts, b < 256) ∧
      ∀ rest px py, decodeTripletsGo fs (ts ++ rest) px py
        = (accumFrom px py (ps.map (fun p => p.1)), ps.map (fun p => p.2), rest)
  | [], _ => ⟨[], [], rfl, rfl, by simp, by simp, by simp, by simp, fun rest px py => rfl⟩
  | ((cx, cy), oc) :: ps, h => by
    obtain ⟨f, tb, henc, hf, htb, htbB, hdec⟩ :=
      decodePoint_encodePoint cx cy oc (h ((cx, cy), oc) (by simp)).1
        (h ((cx, cy), oc) (by simp)).2
    obtain ⟨fs, ts, hencs, hlen, hlo, hhi, hfsB, htsB, hdecs⟩ :=
      encodeTripletsGo_roundtrip ps (fun p hp => h p (by simp [hp]))
    refine ⟨f :: fs, tb ++ ts, ?_, by simp [hlen], by simp; omega, by simp; omega,
      ?_, ?_, ?_⟩
    · simp only [encodeTripletsGo]
      rw [henc]
      simp only [bind, Except.bind]
      rw [hencs]
    · intro b hb
      rcases List.mem_cons.mp hb with rfl | hb
      · exact hf
      · exact hfsB b hb
    · intro b hb
      rcases List.mem_append.mp hb with hb | hb
      · exact htbB b hb
      · exact htsB b hb
    · intro rest px py
      simp only [decodeTripletsGo, List.append_assoc, hdec, List.drop_left, hdecs,
        List.map_cons, accumFrom]

theorem packInt16_roundtrip (i : Int) (h0 : -0x8000 ≤ i) (h1 : i < 0x8000) :
    ∃ a b, packInt16 i = .ok [a, b] ∧ a < 256 ∧ b < 256 ∧ readInt16 a b = i := by
  refine ⟨(i % 65536).toNat / 256, (i % 65536).toNat % 256, ?_, by omega, by omega, ?_⟩
  · unfold packInt16
    rw [if_pos ⟨h0, h1⟩]
  · simp only [readInt16]
    split <;> omega

theorem parseInt16List_cons (a b : Nat) (i : Int) (rest : List Nat) (l : List Int)
    (h : readInt16 a b = i) (hr : parseInt16List rest = .ok l) :
    parseInt16List (a :: b :: rest) = .ok (i :: l) := by
  simp only [parseInt16List, hr, bind, Except.bind, h]

theorem encNPointsGo_roundtrip : ∀ (endPts : List Int) (last : Int),
    List.Chain (fun a b => a ≤ b ∧ b ≤ a + 65535) last endPts →
    ∃ bs, encNPointsGo last endPts = .ok bs ∧ bs.length ≤ 3 * endPts.length ∧
      ∀ rest, decNPointsGo last endPts.length (bs ++ rest) = .ok (endPts, rest)
  | [], _, _ => ⟨[], rfl, by simp, fun rest => rfl⟩
  | e :: es, last, hch => by
    obtain ⟨⟨hle, hub⟩, hch'⟩ := List.chain_cons.mp hch
    have hp := pack255UShort_ok (e - last) (by omega) (by omega)
    obtain ⟨bs0, hbs0, hlen0⟩ : ∃ bs0, pack255UShort (e - last) = .ok bs0 ∧ bs0.length ≤ 3 := by
      rw [hp]
      split_ifs <;> exact ⟨_, rfl, by simp⟩
    obtain ⟨bs, hbs, hlen, hdec⟩ := encNPointsGo_roundtrip es e hch'
    refine ⟨bs0 ++ bs, ?_, by simp; omega, ?_⟩
    · simp only [encNPointsGo]
      rw [hbs0]
      simp only [bind, Except.bind]
      rw [hbs]
    · intro rest
      simp only [List.length_cons, decNPointsGo]
      rw [List.append_assoc, unpack255UShort_append_pack (e - last) bs0 (bs ++ rest) hbs0]
      simp only [bind, Except.bind]
      rw [show last + (((e - last).toNat : Nat) : Int) = e from by omega, hdec rest]

theorem decComponentsGo_enc : ∀ (comps : List GlyphComponent) (hI : Bool) (rest : List Nat)
    (fuel : Nat), comps ≠ [] → comps.length ≤ fuel →
    decComponentsGo fuel (encComponentsGo hI comps ++ rest) = .ok (comps, hI, rest)
  | [], _, _, _, hne, _ => absurd rfl hne
  | [c], hI, rest, fuel, _, hf => by
    obtain ⟨f, rfl⟩ : ∃ f, fuel = f + 1 :=
      ⟨fuel - 1, by simp only [List.length_cons, List.length_nil] at hf; omega⟩
    obtain ⟨pl⟩ := c
    have hlen : ¬ (pl ++ rest).length < pl.length := by
      simp only [List.length_append]; omega
    cases hI <;>
      simp [encComponentsGo, compileComponent, decComponentsGo, decompileComponent,
        hlen, bind, Except.bind, List.take_left, List.drop_left,
        (by decide : (2 &&& 1 : Nat) = 0), (by decide : (2 &&& 2 : Nat) = 2),
        (by decide : (0 &&& 1 : Nat) = 0), (by decide : (0 &&& 2 : Nat) = 0)]
  | c :: c₂ :: cs, hI, rest, fuel, _, hf => by
    obtain ⟨f, rfl⟩ : ∃ f, fuel = f + 1 :=
      ⟨fuel - 1, by simp only [List.length_cons] at hf; omega⟩
    have ih := decComponentsGo_enc (c₂ :: cs) hI rest f (by simp)
      (by simp only [List.length_cons] at hf ⊢; omega)
    obtain ⟨pl⟩ := c
    rw [show encComponentsGo hI (⟨pl⟩ :: c₂ :: cs)
      = compileComponent true false ⟨pl⟩ ++ encComponentsGo hI (c₂ :: cs) from rfl]
    set E := encComponentsGo hI (c₂ :: cs) with hE
    have hlen : ¬ (pl ++ (E ++ rest)).length < pl.length := by
      simp only [List.length_append]; omega
    simp [compileComponent, decComponentsGo, decompileComponent, hlen, bind, Except.bind,
      List.take_left, List.drop_left, ih,
      (by decide : (1 &&& 1 : Nat) = 1), (by decide : (1 &&& 2 : Nat) = 0)]

theorem packBBox_roundtrip (b : BBox) (hv : validBBox b) :
    ∃ a0 a1 b0 b1 c0 c1 d0 d1, packBBox b = .ok [a0, a1, b0, b1, c0, c1, d0, d1] ∧
      readInt16 a0 a1 = b.xMin ∧ readInt16 b0 b1 = b.yMin ∧
      readInt16 c0 c1 = b.xMax ∧ readInt16 d0 d1 = b.yMax := by
  obtain ⟨h1, h2, h3, h4, h5, h6, h7, h8⟩ := hv
  obtain ⟨a0, a1, hA, _, _, hAr⟩ := packInt16_roundtrip b.xMin h1 h2
  obtain ⟨b0, b1, hB, _, _, hBr⟩ := packInt16_roundtrip b.yMin h3 h4
  obtain ⟨c0, c1, hC, _, _, hCr⟩ := packInt16_roundtrip b.xMax h5 h6
  obtain ⟨d0, d1, hD, _, _, hDr⟩ := packInt16_roundtrip b.yMax h7 h8
  refine ⟨a0, a1, b0, b1, c0, c1, d0, d1, ?_, hAr, hBr, hCr, hDr⟩
  simp only [packBBox]
  rw [hA]
  simp only [bind, Except.bind]
  rw [hB]
  simp only [bind, Except.bind]
  rw [hC]
  simp only [bind, Except.bind]
  rw [hD]
  simp only [bind, Except.bind, List.cons_append, List.nil_append]

theorem encComponentsGo_length_ge : ∀ (comps : List GlyphComponent) (hI : Bool),
    comps.length ≤ (encComponentsGo hI comps).length
  | [], _ => Nat.le_refl 0
  | [c], hI => by simp [encComponentsGo, compileComponent]
  | c :: c₂ :: cs, hI => by
    have ih := encComponentsGo_length_ge (c₂ :: cs) hI
    simp only [encComponentsGo, compileComponent, List.length_cons, List.length_append] at ih ⊢
    omega

theorem pack255UShort_exists (i : Int) (h0 : 0 ≤ i) (h1 : i ≤ 0xFFFF) :
    ∃ bs, pack255UShort i = .ok bs ∧ bs.length ≤ 3 := by
  rw [pack255UShort_ok i h0 h1]
  split_ifs <;> exact ⟨_, rfl, by simp⟩

theorem decodeGlyphAt_empty (bitmap : List Nat) (gid : Nat) (p : EncParts)
    (hp : encodeGlyphParts .empty = .ok p) (np' fl' gl' cp' bb' in' : List Nat) :
    decodeGlyphAt bitmap gid 0
      ⟨p.nPoints ++ np', p.flags ++ fl', p.glyph ++ gl', p.comp ++ cp', p.bboxBytes ++ bb',
        p.instr ++ in'⟩ = .ok (.empty, ⟨np', fl', gl', cp', bb', in'⟩) := by
  simp only [encodeGlyphParts] at hp
  rw [show packInt16 0 = .ok [0, 0] from rfl] at hp
  simp only [bind, Except.bind, Except.ok.injEq] at hp
  subst hp
  simp [decodeGlyphAt]

theorem decodeGlyphAt_simple (bitmap : List Nat) (gid : Nat)
    (endPts : List Int) (onCurve : List Bool) (coords : List (Int × Int))
    (instrs : List Nat) (bbox : BBox) (p : EncParts)
    (hv : validGlyph (.simple endPts onCurve coords instrs bbox))
    (hp : encodeGlyphParts (.simple endPts onCurve coords instrs bbox) = .ok p)
    (hbit : (bitmap.getD (gid >>> 3) 0 &&& (0x80 >>> (gid &&& 7)) ≠ 0) ↔ p.hasBBox = true)
    (np' fl' gl' cp' bb' in' : List Nat) :
    decodeGlyphAt bitmap gid (endPts.length : Int)
      ⟨p.nPoints ++ np', p.flags ++ fl', p.glyph ++ gl', p.comp ++ cp', p.bboxBytes ++ bb',
        p.instr ++ in'⟩ = .ok (.simple endPts onCurve coords instrs bbox,
          ⟨np', fl', gl', cp', bb', in'⟩) := by
  obtain ⟨hne, hlen16, hchain, hclen, holen, hrel, hilen, hibytes, hvbb⟩ := hv
  have hlen1 : 1 ≤ endPts.length := List.length_pos.mpr hne
  obtain ⟨nca, ncb, hnc, _, _, hncr⟩ :=
    packInt16_roundtrip (endPts.length : Int) (by omega) (by omega)
  obtain ⟨npB, hnp, hnplen, hnpdec⟩ := encNPointsGo_roundtrip endPts (-1) hchain
  have habslen : (absoluteToRelative coords).length = coords.length :=
    absoluteToRelativeGo_length coords 0 0
  have hreq : ∀ q ∈ (absoluteToRelative coords).zip onCurve,
      q.1.1.natAbs < 65536 ∧ q.1.2.natAbs < 65536 :=
    fun q hq => hrel q.1 (List.of_mem_zip hq).1
  obtain ⟨fB, tB, htrip, hflen, hflo, hfhi, _, _, htdec⟩ := encodeTripletsGo_roundtrip _ hreq
  obtain ⟨ilB, hilB, hilLen⟩ := pack255UShort_exists (instrs.length : Int) (by omega) (by omega)
  have hziplen : ((absoluteToRelative coords).zip onCurve).length = coords.length := by
    rw [List.length_zip, habslen, holen, Nat.min_self]
  have hfBlen : fB.length = coords.length := by rw [hflen, hziplen]
  have hm1 : ((absoluteToRelative coords).zip onCurve).map (fun q => q.1)
      = absoluteToRelative coords :=
    List.map_fst_zip _ _ (by rw [habslen, holen])
  have hm2 : ((absoluteToRelative coords).zip onCurve).map (fun q => q.2) = onCurve :=
    List.map_snd_zip _ _ (by rw [habslen, holen])
  have hm1' : accumFrom 0 0 (((absoluteToRelative coords).zip onCurve).map (fun q => q.1))
      = coords := by
    rw [hm1]
    exact accumFrom_absoluteToRelativeGo coords 0 0
  simp only [encodeGlyphParts] at hp
  rw [hnc] at hp
  simp only [bind, Except.bind] at hp
  rw [hnp] at hp
  simp only [bind, Except.bind] at hp
  rw [if_neg (by omega : ¬ coords.length ≠ onCurve.length)] at hp
  simp only [bind, Except.bind, pure, Except.pure] at hp
  rw [htrip] at hp
  simp only [bind, Except.bind] at hp
  rw [hilB] at hp
  simp only [bind, Except.bind] at hp
  have hdc : ∀ cs bs : List Nat, decCoordinates endPts.length
      ⟨npB ++ np', fB ++ fl', (tB ++ ilB) ++ gl', cs, bs, instrs ++ in'⟩
      = .ok ((endPts, coords, onCurve, instrs), ⟨np', fl', gl', cs, bs, in'⟩) := by
    intro cs bs
    simp only [decCoordinates]
    rw [hnpdec np']
    simp only [bind, Except.bind]
    rw [← hclen]
    rw [if_neg (by simp only [List.length_append]; omega)]
    rw [List.take_left' hfBlen, List.drop_left' hfBlen]
    rw [if_neg (by simp only [List.length_append]; omega)]
    rw [List.append_assoc, htdec (ilB ++ gl') 0 0]
    simp only [decInstructions]
    rw [unpack255UShort_append_pack _ _ _ hilB]
    simp only [bind, Except.bind]
    rw [show ((instrs.length : Nat) : Int).toNat = instrs.length from by omega]
    rw [List.take_left, List.drop_left, hm1', hm2]
  by_cases hbb : bbox = calcIntBounds coords
  · rw [if_pos hbb, Except.ok.injEq] at hp
    subst hp
    have hnotbit : ¬ (bitmap.getD (gid >>> 3) 0 &&& (0x80 >>> (gid &&& 7)) ≠ 0) :=
      fun h => by simpa using hbit.mp h
    simp only [decodeGlyphAt]
    rw [if_neg (by omega : ¬ ((endPts.length : Nat) : Int) = 0),
      if_neg (by omega : ¬ ((endPts.length : Nat) : Int) < 0),
      show (((endPts.length : Nat) : Int)).toNat = endPts.length from by omega]
    rw [hdc _ _]
    simp only [bind, Except.bind, decBBox]
    rw [if_neg (by simp), if_neg hnotbit, ← hbb]
    simp
  · obtain ⟨a0, a1, b0, b1, c0, c1, d0, d1, hpb, hr1, hr2, hr3, hr4⟩ :=
      packBBox_roundtrip bbox hvbb
    rw [if_neg hbb] at hp
    rw [hpb] at hp
    simp only [bind, Except.bind, Except.ok.injEq] at hp
    subst hp
    have hbitT : bitmap.getD (gid >>> 3) 0 &&& (0x80 >>> (gid &&& 7)) ≠ 0 := hbit.mpr rfl
    simp only [decodeGlyphAt]
    rw [if_neg (by omega : ¬ ((endPts.length : Nat) : Int) = 0),
      if_neg (by omega : ¬ ((endPts.length : Nat) : Int) < 0),
      show (((endPts.length : Nat) : Int)).toNat = endPts.length from by omega]
    rw [hdc _ _]
    simp only [bind, Except.bind, decBBox]
    rw [if_neg (by simp), if_pos hbitT]
    simp only [List.cons_append, List.nil_append]
    rw [hr1, hr2, hr3, hr4]

theorem decodeGlyphAt_composite (bitmap : List Nat) (gid : Nat)
    (comps : List GlyphComponent) (instrs : Option (List Nat)) (bbox : BBox) (p : EncParts)
    (hv : validGlyph (.composite comps instrs bbox))
    (hp : encodeGlyphParts (.composite comps instrs bbox) = .ok p)
    (hbit : (bitmap.getD (gid >>> 3) 0 &&& (0x80 >>> (gid &&& 7)) ≠ 0) ↔ p.hasBBox = true)
    (np' fl' gl' cp' bb' in' : List Nat) :
    decodeGlyphAt bitmap gid (-1)
      ⟨p.nPoints ++ np', p.flags ++ fl', p.glyph ++ gl', p.comp ++ cp', p.bboxBytes ++ bb',
        p.instr ++ in'⟩ = .ok (.composite comps instrs bbox,
          ⟨np', fl', gl', cp', bb', in'⟩) := by
  obtain ⟨hcne, hcpay, hcinstr, hvbb⟩ := hv
  obtain ⟨a0, a1, b0, b1, c0, c1, d0, d1, hpb, hr1, hr2, hr3, hr4⟩ :=
    packBBox_roundtrip bbox hvbb
  simp only [encodeGlyphParts] at hp
  rw [show packInt16 (-1) = .ok [255, 255] from rfl] at hp
  simp only [bind, Except.bind] at hp
  have hfuel : comps.length ≤ (encComponentsGo instrs.isSome comps ++ cp').length + 1 := by
    have := encComponentsGo_length_ge comps instrs.isSome
    simp only [List.length_append]
    omega
  have hdcmp := decComponentsGo_enc comps instrs.isSome cp'
    ((encComponentsGo instrs.isSome comps ++ cp').length + 1) hcne hfuel
  cases instrs with
  | none =>
    rw [dif_neg (by simp)] at hp
    rw [hpb] at hp
    simp only [bind, Except.bind, Except.ok.injEq] at hp
    subst hp
    have hbitT : bitmap.getD (gid >>> 3) 0 &&& (0x80 >>> (gid &&& 7)) ≠ 0 := hbit.mpr rfl
    simp only [decodeGlyphAt]
    rw [if_neg (by decide : ¬ ((-1 : Int) = 0)), if_pos (by decide : (-1 : Int) < 0)]
    simp only [decComponents]
    rw [hdcmp]
    simp only [bind, Except.bind, Option.isSome_none, Bool.false_eq_true, if_false, decBBox]
    rw [if_neg (fun h => h.2 hbitT), if_pos hbitT]
    simp only [List.cons_append, List.nil_append]
    rw [hr1, hr2, hr3, hr4]
  | some l =>
    rw [dif_pos ⟨by simp, hcne⟩] at hp
    simp only [Option.get_some] at hp
    obtain ⟨ilB, hilB, hilLen⟩ :=
      pack255UShort_exists (l.length : Int) (by omega)
        (by have := (hcinstr l rfl).1; omega)
    rw [hilB] at hp
    simp only [bind, Except.bind] at hp
    rw [hpb] at hp
    simp only [bind, Except.bind, Except.ok.injEq] at hp
    subst hp
    have hbitT : bitmap.getD (gid >>> 3) 0 &&& (0x80 >>> (gid &&& 7)) ≠ 0 := hbit.mpr rfl
    simp only [decodeGlyphAt]
    rw [if_neg (by decide : ¬ ((-1 : Int) = 0)), if_pos (by decide : (-1 : Int) < 0)]
    simp only [decComponents]
    rw [hdcmp]
    simp only [bind, Except.bind, Option.isSome_some, if_true, decInstructions]
    rw [unpack255UShort_append_pack _ _ _ hilB]
    simp only [bind, Except.bind]
    rw [show ((l.length : Nat) : Int).toNat = l.length from by omega,
      List.take_left, List.drop_left]
    simp only [decBBox]
    rw [if_neg (fun h => h.2 hbitT), if_pos hbitT]
    simp only [List.cons_append, List.nil_append]
    rw [hr1, hr2, hr3, hr4]

theorem decodeGlyphsGo_enc : ∀ (gs : List Glyph) (ps : List EncParts) (bitmap : List Nat)
    (gid : Nat), (∀ g ∈ gs, validGlyph g) → encodeAllParts gs = .ok ps →
    (∀ i (hi : i < ps.length),
      (bitmap.getD ((gid + i) >>> 3) 0 &&& (0x80 >>> ((gid + i) &&& 7)) ≠ 0
        ↔ ps[i].hasBBox = true)) →
    decodeGlyphsGo bitmap gid (gs.map Glyph.numberOfContours)
      ⟨(ps.map (fun p => p.nPoints)).flatten, (ps.map (fun p => p.flags)).flatten,
        (ps.map (fun p => p.glyph)).flatten, (ps.map (fun p => p.comp)).flatten,
        (ps.map (fun p => p.bboxBytes)).flatten, (ps.map (fun p => p.instr)).flatten⟩
      = .ok gs
  | [], ps, bitmap, gid, _, henc, _ => by
    simp only [encodeAllParts, Except.ok.injEq] at henc
    subst henc
    rfl
  | g :: gs, ps, bitmap, gid, hv, henc, hbits => by
    cases hg : encodeGlyphParts g with
    | error e =>
      simp only [encodeAllParts, hg, bind, Except.bind] at henc
      exact Except.noConfusion henc
    | ok p =>
      cases hgs : encodeAllParts gs with
      | error e =>
        simp only [encodeAllParts, hg, hgs, bind, Except.bind] at henc
        exact Except.noConfusion henc
      | ok ps' =>
        simp only [encodeAllParts, hg, hgs, bind, Except.bind, Except.ok.injEq] at henc
        subst henc
        simp only [List.map_cons, List.flatten_cons]
        have hbit0 := hbits 0 (by simp)
        simp only [Nat.add_zero, List.getElem_cons_zero] at hbit0
        have hrec := decodeGlyphsGo_enc gs ps' bitmap (gid + 1)
          (fun g' hmem => hv g' (by simp [hmem])) hgs
          (fun i hi => by
            have hb := hbits (i + 1) (by simp only [List.length_cons]; omega)
            rw [show gid + (i + 1) = (gid + 1) + i from by omega] at hb
            simpa using hb)
        cases g with
        | empty =>
          simp only [decodeGlyphsGo, Glyph.numberOfContours]
          rw [decodeGlyphAt_empty bitmap gid p hg _ _ _ _ _ _]
          simp only [bind, Except.bind]
          rw [hrec]
        | simple endPts onCurve coords instrs bbox =>
          simp only [decodeGlyphsGo, Glyph.numberOfContours]
          rw [decodeGlyphAt_simple bitmap gid endPts onCurve coords instrs bbox p
            (hv _ (by simp)) hg hbit0 _ _ _ _ _ _]
          simp only [bind, Except.bind]
          rw [hrec]
        | composite comps instrs bbox =>
          simp only [decodeGlyphsGo, Glyph.numberOfContours]
          rw [decodeGlyphAt_composite bitmap gid comps instrs bbox p
            (hv _ (by simp)) hg hbit0 _ _ _ _ _ _]
          simp only [bind, Except.bind]
          rw [hrec]

theorem encComponentsGo_length_eq : ∀ (comps : List GlyphComponent) (hI : Bool),
    (encComponentsGo hI comps).length = (comps.map (fun c => 2 + c.payload.length)).sum
  | [], _ => rfl
  | [c], hI => by
    simp [encComponentsGo, compileComponent]
    omega
  | c :: c₂ :: cs, hI => by
    have ih := encComponentsGo_length_eq (c₂ :: cs) hI
    rw [show encComponentsGo hI (c :: c₂ :: cs)
      = compileComponent true false c ++ encComponentsGo hI (c₂ :: cs) from rfl,
      List.length_append, ih]
    simp only [compileComponent, List.length_cons, List.length_append, List.map_cons,
      List.sum_cons, List.length_nil]

theorem encodeGlyphParts_ok (g : Glyph) (hv : validGlyph g) :
    ∃ p, encodeGlyphParts g = .ok p ∧
      (∃ a b, p.nContour = [a, b] ∧ readInt16 a b = g.numberOfContours) ∧
      p.nPoints.length ≤ 3 * glyphContourCount g ∧
      p.flags.length ≤ glyphPointCount g ∧
      p.glyph.length ≤ 4 * glyphPointCount g + 3 ∧
      p.comp.length = glyphCompBytes g ∧
      p.instr.length = glyphInstrLen g ∧
      p.bboxBytes.length ≤ 8 := by
  cases g with
  | empty =>
    refine ⟨⟨[0, 0], [], [], [], [], [], false, []⟩, ?_, ⟨0, 0, rfl, by simp [readInt16, Glyph.numberOfContours]⟩,
      by simp [glyphContourCount], by simp [glyphPointCount], by simp [glyphPointCount],
      by simp [glyphCompBytes], by simp [glyphInstrLen], by simp⟩
    simp only [encodeGlyphParts]
    rw [show packInt16 0 = .ok [0, 0] from rfl]
    simp only [bind, Except.bind]
  | simple endPts onCurve coords instrs bbox =>
    obtain ⟨hne, hlen16, hchain, hclen, holen, hrel, hilen, hibytes, hvbb⟩ := hv
    have hlen1 : 1 ≤ endPts.length := List.length_pos.mpr hne
    obtain ⟨nca, ncb, hnc, _, _, hncr⟩ :=
      packInt16_roundtrip (endPts.length : Int) (by omega) (by omega)
    obtain ⟨npB, hnp, hnplen, _⟩ := encNPointsGo_roundtrip endPts (-1) hchain
    have habslen : (absoluteToRelative coords).length = coords.length :=
      absoluteToRelativeGo_length coords 0 0
    have hreq : ∀ q ∈ (absoluteToRelative coords).zip onCurve,
        q.1.1.natAbs < 65536 ∧ q.1.2.natAbs < 65536 :=
      fun q hq => hrel q.1 (List.of_mem_zip hq).1
    obtain ⟨fB, tB, htrip, hflen, hflo, hfhi, _, _, _⟩ := encodeTripletsGo_roundtrip _ hreq
    obtain ⟨ilB, hilB, hilLen⟩ :=
      pack255UShort_exists (instrs.length : Int) (by omega) (by omega)
    have hziplen : ((absoluteToRelative coords).zip onCurve).length = coords.length := by
      rw [List.length_zip, habslen, holen, Nat.min_self]
    have hpc : glyphPointCount (.simple endPts onCurve coords instrs bbox)
        = coords.length := by
      simp only [glyphPointCount]
      omega
    by_cases hbb : bbox = calcIntBounds coords
    · refine ⟨⟨[nca, ncb], npB, fB, tB ++ ilB, [], instrs, false, []⟩, ?_,
        ⟨nca, ncb, rfl, by simpa [Glyph.numberOfContours] using hncr⟩, ?_, ?_, ?_, ?_, ?_, by simp⟩
      · simp only [encodeGlyphParts]
        rw [hnc]
        simp only [bind, Except.bind]
        rw [hnp]
        simp only [bind, Except.bind]
        rw [if_neg (by omega : ¬ coords.length ≠ onCurve.length)]
        simp only [bind, Except.bind, pure, Except.pure]
        rw [htrip]
        simp only [bind, Except.bind]
        rw [hilB]
        simp only [bind, Except.bind]
        rw [if_pos hbb]
      · simpa [glyphContourCount] using hnplen
      · rw [hpc]
        simp only []
        omega
      · rw [hpc]
        simp only [List.length_append]
        omega
      · simp [glyphCompBytes]
      · simp [glyphInstrLen]
    · obtain ⟨a0, a1, b0, b1, c0, c1, d0, d1, hpb, _, _, _, _⟩ :=
        packBBox_roundtrip bbox hvbb
      refine ⟨⟨[nca, ncb], npB, fB, tB ++ ilB, [], instrs, true,
        [a0, a1, b0, b1, c0, c1, d0, d1]⟩, ?_,
        ⟨nca, ncb, rfl, by simpa [Glyph.numberOfContours] using hncr⟩, ?_, ?_, ?_, ?_, ?_, by simp⟩
      · simp only [encodeGlyphParts]
        rw [hnc]
        simp only [bind, Except.bind]
        rw [hnp]
        simp only [bind, Except.bind]
        rw [if_neg (by omega : ¬ coords.length ≠ onCurve.length)]
        simp only [bind, Except.bind, pure, Except.pure]
        rw [htrip]
        simp only [bind, Except.bind]
        rw [hilB]
        simp only [bind, Except.bind]
        rw [if_neg hbb, hpb]
      · simpa [glyphContourCount] using hnplen
      · rw [hpc]
        simp only []
        omega
      · rw [hpc]
        simp only [List.length_append]
        omega
      · simp [glyphCompBytes]
      · simp [glyphInstrLen]
  | composite comps instrs bbox =>
    obtain ⟨hcne, hcpay, hcinstr, hvbb⟩ := hv
    obtain ⟨a0, a1, b0, b1, c0, c1, d0, d1, hpb, _, _, _, _⟩ :=
      packBBox_roundtrip bbox hvbb
    have hcl := encComponentsGo_length_eq comps instrs.isSome
    cases instrs with
    | none =>
      refine ⟨⟨[255, 255], [], [], [], encComponentsGo false comps, [], true,
        [a0, a1, b0, b1, c0, c1, d0, d1]⟩, ?_,
        ⟨255, 255, rfl, by simp [readInt16, Glyph.numberOfContours]⟩,
        by simp [glyphContourCount], by simp [glyphPointCount], by simp [glyphPointCount],
        by simpa [glyphCompBytes] using hcl, by simp [glyphInstrLen], by simp⟩
      simp only [encodeGlyphParts]
      rw [show packInt16 (-1) = .ok [255, 255] from rfl]
      simp only [bind, Except.bind]
      rw [dif_neg (by simp)]
      rw [hpb]
      simp only [bind, Except.bind]
      rfl
    | some l =>
      obtain ⟨ilB, hilB, hilLen⟩ :=
        pack255UShort_exists (l.length : Int) (by omega)
          (by have := (hcinstr l rfl).1; omega)
      refine ⟨⟨[255, 255], [], [], ilB, encComponentsGo true comps, l, true,
        [a0, a1, b0, b1, c0, c1, d0, d1]⟩, ?_,
        ⟨255, 255, rfl, by simp [readInt16, Glyph.numberOfContours]⟩,
        by simp [glyphContourCount], by simp [glyphPointCount],
        by simp [glyphPointCount]; omega,
        by simpa [glyphCompBytes] using hcl, by simp [glyphInstrLen], by simp⟩
      simp only [encodeGlyphParts]
      rw [show packInt16 (-1) = .ok [255, 255] from rfl]
      simp only [bind, Except.bind]
      rw [dif_pos ⟨by simp, hcne⟩]
      simp only [Option.get_some]
      rw [hilB]
      simp only [bind, Except.bind]
      rw [hpb]
      simp only [bind, Except.bind]
      rfl

theorem encodeAllParts_ok : ∀ (gs : List Glyph), (∀ g ∈ gs, validGlyph g) →
    ∃ ps, encodeAllParts gs = .ok ps ∧ ps.length = gs.length ∧
      parseInt16List ((ps.map (fun p => p.nContour)).flatten)
        = .ok (gs.map Glyph.numberOfContours) ∧
      ((ps.map (fun p => p.nContour)).flatten).length = 2 * gs.length ∧
      ((ps.map (fun p => p.nPoints)).flatten).length ≤ 3 * (gs.map glyphContourCount).sum ∧
      ((ps.map (fun p => p.flags)).flatten).length ≤ (gs.map glyphPointCount).sum ∧
      ((ps.map (fun p => p.glyph)).flatten).length
        ≤ 4 * (gs.map glyphPointCount).sum + 3 * gs.length ∧
      ((ps.map (fun p => p.comp)).flatten).length = (gs.map glyphCompBytes).sum ∧
      ((ps.map (fun p => p.instr)).flatten).length = (gs.map glyphInstrLen).sum ∧
      ((ps.map (fun p => p.bboxBytes)).flatten).length ≤ 8 * gs.length
  | [], _ => ⟨[], rfl, rfl, rfl, rfl, by simp, by simp, by simp, rfl, rfl, by simp⟩
  | g :: gs, hv => by
    obtain ⟨p, hp, ⟨a, b, hnc, hr⟩, hnp, hfl, hgl, hcp, hin, hbbl⟩ :=
      encodeGlyphParts_ok g (hv g (by simp))
    obtain ⟨ps, hps, hlen, hparse, hnclen, hnplen, hfllen, hgllen, hcplen, hinlen, hbblen⟩ :=
      encodeAllParts_ok gs (fun g' h => hv g' (by simp [h]))
    refine ⟨p :: ps, ?_, by simp [hlen], ?_, ?_, ?_, ?_, ?_, ?_, ?_, ?_⟩
    · simp only [encodeAllParts]
      rw [hp]
      simp only [bind, Except.bind]
      rw [hps]
    · simp only [List.map_cons, List.flatten_cons, hnc, List.cons_append, List.nil_append]
      exact parseInt16List_cons a b _ _ _ hr hparse
    · simp only [List.map_cons, List.flatten_cons, hnc, List.length_append, List.length_cons,
        List.length_nil]
      omega
    · simp only [List.map_cons, List.flatten_cons, List.length_append, List.sum_cons]
      omega
    · simp only [List.map_cons, List.flatten_cons, List.length_append, List.sum_cons]
      omega
    · simp only [List.map_cons, List.flatten_cons, List.length_append, List.sum_cons,
        List.length_cons]
      omega
    · simp only [List.map_cons, List.flatten_cons, List.length_append, List.sum_cons]
      omega
    · simp only [List.map_cons, List.flatten_cons, List.length_append, List.sum_cons]
      omega
    · simp only [List.map_cons, List.flatten_cons, List.length_append, List.length_cons]
      omega

theorem packU16_ok (n : Nat) (h : n < 0x10000) : packU16 n = .ok [n / 256, n % 256] := by
  unfold packU16
  rw [if_pos h]

theorem packU32_ok (l : Nat) (h : l < 0x100000000) : packU32 l = .ok (u32Bytes l) := by
  unfold packU32 u32Bytes
  rw [if_pos h]

theorem shr5_eq (a : Nat) : a >>> 5 = a / 32 := by
  rw [Nat.shiftRight_eq_div_pow]

theorem getD_replicate_zero (k m : Nat) : (List.replicate k 0).getD m 0 = 0 := by
  rw [List.getD_eq_getElem?_getD, List.getElem?_replicate]
  split <;> rfl

theorem transform_eval (gs : List Glyph) (idx : Nat) (ps : List EncParts)
    (hps : encodeAllParts gs = .ok ps) (hn : gs.length < 0x10000) (hidx : idx < 0x10000)
    (h1 : ((ps.map (fun p => p.nContour)).flatten).length < 0x100000000)
    (h2 : ((ps.map (fun p => p.nPoints)).flatten).length < 0x100000000)
    (h3 : ((ps.map (fun p => p.flags)).flatten).length < 0x100000000)
    (h4 : ((ps.map (fun p => p.glyph)).flatten).length < 0x100000000)
    (h5 : ((ps.map (fun p => p.comp)).flatten).length < 0x100000000)
    (h6 : (buildBitmap (List.replicate (bboxBitmapSize gs.length) 0) 0 ps
        ++ (ps.map (fun p => p.bboxBytes)).flatten).length < 0x100000000)
    (h7 : ((ps.map (fun p => p.instr)).flatten).length < 0x100000000) :
    transform ⟨gs, idx⟩ = .ok (
      [0, 0, 0, 0] ++ [gs.length / 256, gs.length % 256] ++ [idx / 256, idx % 256]
      ++ u32Bytes ((ps.map (fun p => p.nContour)).flatten).length
      ++ u32Bytes ((ps.map (fun p => p.nPoints)).flatten).length
      ++ u32Bytes ((ps.map (fun p => p.flags)).flatten).length
      ++ u32Bytes ((ps.map (fun p => p.glyph)).flatten).length
      ++ u32Bytes ((ps.map (fun p => p.comp)).flatten).length
      ++ u32Bytes (buildBitmap (List.replicate (bboxBitmapSize gs.length) 0) 0 ps
          ++ (ps.map (fun p => p.bboxBytes)).flatten).length
      ++ u32Bytes ((ps.map (fun p => p.instr)).flatten).length
      ++ (ps.map (fun p => p.nContour)).flatten
      ++ (ps.map (fun p => p.nPoints)).flatten
      ++ (ps.map (fun p => p.flags)).flatten
      ++ (ps.map (fun p => p.glyph)).flatten
      ++ (ps.map (fun p => p.comp)).flatten
      ++ (buildBitmap (List.replicate (bboxBitmapSize gs.length) 0) 0 ps
          ++ (ps.map (fun p => p.bboxBytes)).flatten)
      ++ (ps.map (fun p => p.instr)).flatten) := by
  simp only [transform]
  rw [hps]
  simp only [bind, Except.bind]
  rw [show packU32 0 = .ok [0, 0, 0, 0] from rfl]
  simp only [bind, Except.bind]
  rw [packU16_ok _ hn]
  simp only [bind, Except.bind]
  rw [packU16_ok _ hidx]
  simp only [bind, Except.bind]
  rw [packU32_ok _ h1]
  simp only [bind, Except.bind]
  rw [packU32_ok _ h2]
  simp only [bind, Except.bind]
  rw [packU32_ok _ h3]
  simp only [bind, Except.bind]
  rw [packU32_ok _ h4]
  simp only [bind, Except.bind]
  rw [packU32_ok _ h5]
  simp only [bind, Except.bind]
  rw [packU32_ok _ h6]
  simp only [bind, Except.bind]
  rw [packU32_ok _ h7]

theorem reconstruct_eval (gs : List Glyph) (idx : Nat)
    (ncS npS flS glS cpS bmS bbS inS : List Nat)
    (h1 : ncS.length < 0x100000000) (h2 : npS.length < 0x100000000)
    (h3 : flS.length < 0x100000000) (h4 : glS.length < 0x100000000)
    (h5 : cpS.length < 0x100000000) (h6 : (bmS ++ bbS).length < 0x100000000)
    (h7 : inS.length < 0x100000000)
    (hBMlen : bmS.length = bboxBitmapSize gs.length)
    (hparse : parseInt16List ncS = .ok (gs.map Glyph.numberOfContours))
    (hdec : decodeGlyphsGo bmS 0 (gs.map Glyph.numberOfContours) ⟨npS, flS, glS, cpS, bbS, inS⟩
      = .ok gs) :
    reconstruct ([0, 0, 0, 0] ++ [gs.length / 256, gs.length % 256] ++ [idx / 256, idx % 256]
      ++ u32Bytes ncS.length ++ u32Bytes npS.length ++ u32Bytes flS.length ++ u32Bytes glS.length
      ++ u32Bytes cpS.length ++ u32Bytes (bmS ++ bbS).length ++ u32Bytes inS.length
      ++ ncS ++ npS ++ flS ++ glS ++ cpS ++ (bmS ++ bbS) ++ inS) = .ok ⟨gs, idx⟩ := by
  have e16 : gs.length / 256 * 256 + gs.length % 256 = gs.length := by omega
  have e16b : idx / 256 * 256 + idx % 256 = idx := by omega
  have e32 : ∀ l : Nat, l < 0x100000000 →
      ((l / 0x1000000 % 256 * 256 + l / 0x10000 % 256) * 256 + l / 256 % 256) * 256 + l % 256
        = l := fun l hl => by omega
  simp only [u32Bytes, List.cons_append, List.nil_append]
  simp only [reconstruct]
  rw [if_neg (by simp only [List.length_cons, List.length_append]; omega)]
  simp only [List.getD_cons_zero, List.getD_cons_succ, readU16, readU32]
  rw [e16, e16b, e32 _ h1, e32 _ h2, e32 _ h3, e32 _ h4, e32 _ h5, e32 _ h6, e32 _ h7]
  rw [if_neg (by simp only [List.length_cons, List.length_append]; omega)]
  simp only [List.drop_succ_cons, List.drop_zero]
  rw [show ((((((ncS ++ npS) ++ flS) ++ glS) ++ cpS) ++ (bmS ++ bbS)) ++ inS)
      = ncS ++ (npS ++ (flS ++ (glS ++ (cpS ++ ((bmS ++ bbS) ++ inS))))) from by
    simp only [List.append_assoc]]
  rw [List.take_left, List.drop_left, List.take_left, List.drop_left, List.take_left,
    List.drop_left, List.take_left, List.drop_left, List.take_left, List.drop_left,
    List.take_left, List.drop_left, List.take_length]
  rw [List.take_left' hBMlen, List.drop_left' hBMlen]
  rw [hparse]
  simp only [bind, Except.bind]
  rw [if_neg (by simp)]
  rw [hdec]

/-- **C1** (glyf transform round-trip): for every valid TrueType glyf table —
every glyph empty, simple or composite with the structural invariants of a
compiled table, per-point relative deltas of magnitude below `65536`, and the
total stream sizes in `uint32` range — `WOFF2GlyfTable.transform` succeeds and
`WOFF2GlyfTable.reconstruct` of its output returns the original table
pointwise: every glyph's contour count, endPtsOfContours, absolute
coordinates, on-curve flags, instruction bytes and stored bounding box, and
the table's `indexFormat`, are all recovered exactly. -/
theorem c1_glyf_transform_roundtrip (t : GlyfTable) (hv : validTable t) :
    ∃ bs, transform t = .ok bs ∧ reconstruct bs = .ok t := by
  obtain ⟨gs, idx⟩ := t
  obtain ⟨hng, hidx, hvg, hpts, hconts, hcomp, hinstrS⟩ := hv
  dsimp only [] at hng hidx hvg hpts hconts hcomp hinstrS
  obtain ⟨ps, hps, hpslen, hparse, hnclen, hnplen, hfllen, hgllen, hcplen, hinlen, hbblen⟩ :=
    encodeAllParts_ok gs hvg
  have hBM : (buildBitmap (List.replicate (bboxBitmapSize gs.length) 0) 0 ps).length
      = bboxBitmapSize gs.length := by
    rw [buildBitmap_length, List.length_replicate]
  have hsize : bboxBitmapSize gs.length = (gs.length + 31) / 32 * 4 := by
    unfold bboxBitmapSize
    rw [shl2_eq, shr5_eq]
  have h1 : ((ps.map (fun p => p.nContour)).flatten).length < 0x100000000 := by omega
  have h2 : ((ps.map (fun p => p.nPoints)).flatten).length < 0x100000000 := by omega
  have h3 : ((ps.map (fun p => p.flags)).flatten).length < 0x100000000 := by omega
  have h4 : ((ps.map (fun p => p.glyph)).flatten).length < 0x100000000 := by omega
  have h5 : ((ps.map (fun p => p.comp)).flatten).length < 0x100000000 := by omega
  have h6 : (buildBitmap (List.replicate (bboxBitmapSize gs.length) 0) 0 ps
      ++ (ps.map (fun p => p.bboxBytes)).flatten).length < 0x100000000 := by
    rw [List.length_append, hBM, hsize]
    omega
  have h7 : ((ps.map (fun p => p.instr)).flatten).length < 0x100000000 := by omega
  have hbits := buildBitmap_read ps (List.replicate (bboxBitmapSize gs.length) 0) 0
    (fun b hb => by rw [List.eq_of_mem_replicate hb]; omega)
    (fun j hj => by rw [getD_replicate_zero, Nat.zero_and])
    (by rw [List.length_replicate, hsize]; omega)
  have hdec0 := decodeGlyphsGo_enc gs ps
    (buildBitmap (List.replicate (bboxBitmapSize gs.length) 0) 0 ps) 0 hvg hps hbits
  exact ⟨_, transform_eval gs idx ps hps hng hidx h1 h2 h3 h4 h5 h6 h7,
    reconstruct_eval gs idx _ _ _ _ _ _ _ _ h1 h2 h3 h4 h5 h6 h7 hBM hparse hdec0⟩

/-- C1 witness: the one-glyph table with a single empty glyph and
`indexFormat 0` is valid, and the transform/reconstruct round-trip holds on
it. -/
theorem c1_glyf_transform_roundtrip_witness :
    validTable ⟨[.empty], 0⟩ ∧
    ∃ bs, transform ⟨[.empty], 0⟩ = .ok bs ∧ reconstruct bs = .ok ⟨[.empty], 0⟩ := by
  have hv : validTable ⟨[.empty], 0⟩ := by
    simp [validTable, validGlyph, glyphPointCount, glyphContourCount, glyphCompBytes,
      glyphInstrLen]
  exact ⟨hv, c1_glyf_transform_roundtrip _ hv⟩

/-- C10 witness. -/
theorem c10_unpack255UShort_partial_on_empty_witness :
    unpack255UShort [253, 7] = .error (.ttLibError "not enough data to unpack 255UInt16") ∧
    unpack255UShort [] = .error .indexError :=
  ⟨c10_unpack255UShort_partial_on_empty.1 [7] (by decide),
    c10_unpack255UShort_partial_on_empty.2.2.2.1⟩
